import Mathlib

/-
  A shallow embedding of src/withErrors.ts (package compound-errors).

  The source manipulates JavaScript values and objects: a heap of objects
  (functions, class constructors, prototypes, plain objects) addressed by
  natural numbers, where each object carries
    * a `callable` flag        (`typeof o === 'function'`),
    * its source text          (the result of `o.toString()`; the embedding
                                abstracts the method call `input.toString()`
                                on a function value to reading this field,
                                which is the standard behaviour of
                                `Function.prototype.toString`),
    * own data properties      (insertion-ordered association list from
                                string keys to a value with `enumerable` and
                                `writable` attributes; accessor properties
                                and symbol keys are not modelled, all
                                modelled properties are data properties),
    * a prototype link         (`[[Prototype]]`, as an optional address).

  Property lookup walks the prototype chain; the walk is implemented with
  fuel `heap.length + 1`, which covers every acyclic chain in the heap.
  Assignment follows strict-mode OrdinarySet for data properties: writing
  through a non-writable property (own or inherited) throws a TypeError,
  otherwise an own enumerable writable property is created or the existing
  own property's value is replaced in place.  `for (k in o)` enumerates own
  enumerable string keys level by level along the prototype chain, skipping
  keys shadowed at an earlier level; the key list is snapshotted when the
  loop starts.  `Object.assign(to, src)` throws on a null/undefined target,
  copies the own enumerable string-keyed properties of the source and
  returns the target (a fresh wrapper object for a primitive target;
  the wrapper is modelled as an empty ordinary object).
-/

namespace CompoundErrors

/-- A JavaScript value: `undefined`, `null`, a boolean, a number (modelled
as an integer, fractional numbers play no role in this code), a string, or
a reference to a heap object. -/
inductive JSValue where
  | vundefined
  | vnull
  | vbool (b : Bool)
  | vnum (n : Int)
  | vstr (s : String)
  | vref (a : Nat)
deriving DecidableEq, Repr

/-- A data property: value plus the `enumerable` and `writable` attributes. -/
structure PropDesc where
  value : JSValue
  enumerable : Bool := true
  writable : Bool := true
deriving DecidableEq, Repr

/-- A heap object: callability (`typeof === 'function'`), the source text
returned by `toString()`, the insertion-ordered own data properties, and
the `[[Prototype]]` link. -/
structure JSObject where
  callable : Bool := false
  sourceText : String := ""
  props : List (String × PropDesc) := []
  proto : Option Nat := none
deriving DecidableEq, Repr

/-- The heap: objects addressed by their index. -/
abbrev Heap := List JSObject

/-- The only exception kind this code can raise at runtime. -/
inductive JSException where
  | typeError
deriving DecidableEq, Repr

/-- Character-list version of "does `s` start with `p`". -/
def leadChars : List Char → List Char → Bool
  | [], _ => true
  | _ :: _, [] => false
  | c :: cs, d :: ds => c = d && leadChars cs ds

/-- `s.startsWith(p)` on code points (the embedding of the only string
operation the source uses). -/
def strStartsWith (s p : String) : Bool :=
  leadChars p.data s.data

/-- Own-property lookup on a single object. -/
def getOwn (o : JSObject) (k : String) : Option PropDesc :=
  (o.props.find? (fun p => p.1 = k)).map (fun p => p.2)

/-- Create an own enumerable writable data property, or replace the value of
the existing own property of that name in place (attributes and insertion
position preserved), exactly as strict-mode `Set` does on a writable slot. -/
def setOwnProp (o : JSObject) (k : String) (v : JSValue) : JSObject :=
  if o.props.any (fun p => p.1 = k) then
    { o with props := o.props.map (fun p => if p.1 = k then (p.1, { p.2 with value := v }) else p) }
  else
    { o with props := o.props ++ [(k, { value := v })] }

/-- Replace the object stored at address `a` (no change on a dangling address). -/
def heapSetAt : Heap → Nat → JSObject → Heap
  | [], _, _ => []
  | _ :: t, 0, o => o :: t
  | hd :: t, n + 1, o => hd :: heapSetAt t n o

/-- Apply an object transformation at address `a` of the heap. -/
def heapUpdate (h : Heap) (a : Nat) (f : JSObject → JSObject) : Heap :=
  match h.get? a with
  | some o => heapSetAt h a (f o)
  | none => h

/-- Fueled `[[Get]]`: own property, else follow the prototype chain. -/
def getPropFuel (h : Heap) : Nat → Nat → String → JSValue
  | 0, _, _ => .vundefined
  | fuel + 1, a, k =>
    match h.get? a with
    | none => .vundefined
    | some o =>
      match getOwn o k with
      | some d => d.value
      | none =>
        match o.proto with
        | none => .vundefined
        | some q => getPropFuel h fuel q k

/-- `obj[k]` for an object reference: prototype-chain lookup, with fuel
covering every acyclic chain of the heap. -/
def getProp (h : Heap) (a : Nat) (k : String) : JSValue :=
  getPropFuel h (h.length + 1) a k

/-- Whether strict-mode `Set(a, k, v)` succeeds: the first data property
named `k` found along the chain (if any) must be writable. -/
def setAllowedFuel (h : Heap) : Nat → Nat → String → Bool
  | 0, _, _ => true
  | fuel + 1, a, k =>
    match h.get? a with
    | none => true
    | some o =>
      match getOwn o k with
      | some d => d.writable
      | none =>
        match o.proto with
        | none => true
        | some q => setAllowedFuel h fuel q k

/-- Entry point for the writability check of strict-mode assignment. -/
def setAllowed (h : Heap) (a : Nat) (k : String) : Bool :=
  setAllowedFuel h (h.length + 1) a k

/-- Strict-mode `a[k] = v` on an object reference: TypeError through a
non-writable slot, otherwise create/overwrite the own property. -/
def setRef (h : Heap) (a : Nat) (k : String) (v : JSValue) : Except JSException Heap :=
  if setAllowed h a k then
    .ok (heapUpdate h a (fun o => setOwnProp o k v))
  else
    .error .typeError

/-- The own enumerable (string-keyed index and length) properties of a
primitive string, as JavaScript exposes them on the wrapper. -/
def stringProp (s : String) (k : String) : JSValue :=
  if k = "length" then .vnum (Int.ofNat s.length)
  else
    match (List.range s.length).find? (fun i => Nat.repr i = k) with
    | some i =>
      match s.data.get? i with
      | some c => .vstr (String.mk [c])
      | none => .vundefined
    | none => .vundefined

/-- `base[k]` for an arbitrary value: property access throws a TypeError on
`null`/`undefined`, reads through the wrapper on a string, and yields
`undefined` on the other primitives (whose wrapper properties play no role
in this code). -/
def getPropV (h : Heap) (v : JSValue) (k : String) : Except JSException JSValue :=
  match v with
  | .vnull => .error .typeError
  | .vundefined => .error .typeError
  | .vref a => .ok (getProp h a k)
  | .vstr s => .ok (stringProp s k)
  | _ => .ok .vundefined

/-- Strict-mode `base[k] = v` for an arbitrary base value: only an object
reference can be assigned through; `null`, `undefined` and primitives throw
a TypeError in strict mode (module code is strict). -/
def setPropV (h : Heap) (base : JSValue) (k : String) (v : JSValue) : Except JSException Heap :=
  match base with
  | .vref a => setRef h a k v
  | _ => .error .typeError

/-- `typeof v === 'function'` for a reference. -/
def isCallableRef (h : Heap) (a : Nat) : Bool :=
  match h.get? a with
  | some o => o.callable
  | none => false

/-- `typeof v === 'function'` for an arbitrary value. -/
def isFunctionValue (h : Heap) (v : JSValue) : Bool :=
  match v with
  | .vref a => isCallableRef h a
  | _ => false

/-- Source lines 1-3:
`function isClass(input) { return typeof input === 'function' && input.toString().startsWith('class '); }` -/
def isClass (h : Heap) (input : JSValue) : Bool :=
  match input with
  | .vref a =>
    match h.get? a with
    | some o => o.callable && strStartsWith o.sourceText "class "
    | none => false
  | _ => false

/-- The keys `for (k in v)` visits from level `a` given the own keys `seen`
at earlier levels: own enumerable keys not shadowed, then the prototype's. -/
def forInFuel (h : Heap) : Nat → Nat → List String → List String
  | 0, _, _ => []
  | fuel + 1, a, seen =>
    match h.get? a with
    | none => []
    | some o =>
      (o.props.filter (fun p => p.2.enumerable && !(seen.contains p.1))).map (fun p => p.1)
        ++ (match o.proto with
            | none => []
            | some q => forInFuel h fuel q (seen ++ o.props.map (fun p => p.1)))

/-- The key list of `for (k in v)`: chain enumeration for an object,
the index keys for a string, nothing for the other primitives and for
`null`/`undefined`. -/
def forInKeys (h : Heap) (v : JSValue) : List String :=
  match v with
  | .vref a => forInFuel h (h.length + 1) a []
  | .vstr s => (List.range s.length).map (fun i => Nat.repr i)
  | _ => []

/-- The own enumerable string keys of one object, in insertion order. -/
def ownEnumKeys (o : JSObject) : List String :=
  (o.props.filter (fun p => p.2.enumerable)).map (fun p => p.1)

/-- The keys `Object.assign` copies from `ToObject(src)`: own enumerable
keys of an object, the index keys of a string, nothing otherwise. -/
def srcEnumKeys (h : Heap) (v : JSValue) : List String :=
  match v with
  | .vref a =>
    match h.get? a with
    | some o => ownEnumKeys o
    | none => []
  | .vstr s => (List.range s.length).map (fun i => Nat.repr i)
  | _ => []

/-- `Get(from, key)` as `Object.assign` performs it (the keys come from the
source's own key list, so the chain walk resolves to the own slot). -/
def srcGet (h : Heap) (v : JSValue) (k : String) : JSValue :=
  match v with
  | .vref a => getProp h a k
  | .vstr s => stringProp s k
  | _ => .vundefined

/-- The copy loop of `Object.assign(to, src)` over the snapshotted source
key list, reading each value live and writing with throwing `Set`. -/
def assignFold (a : Nat) (src : JSValue) : Heap → List String → Except JSException Heap
  | h, [] => .ok h
  | h, k :: rest =>
    match setRef h a k (srcGet h src k) with
    | .error e => .error e
    | .ok h' => assignFold a src h' rest

/-- `Object.assign(to, src)` (source line 61, `return Object.assign(fn, errors)`):
TypeError on a null/undefined target, copy onto the object itself for an
object target, copy onto a fresh wrapper for a primitive target. -/
def objectAssign (h : Heap) (toV src : JSValue) : Except JSException (JSValue × Heap) :=
  match toV with
  | .vnull => .error .typeError
  | .vundefined => .error .typeError
  | .vref a =>
    match assignFold a src h (srcEnumKeys h src) with
    | .error e => .error e
    | .ok h' => .ok (.vref a, h')
  | _ =>
    let a := h.length
    let h1 := h ++ [{}]
    match assignFold a src h1 (srcEnumKeys h1 src) with
    | .error e => .error e
    | .ok h' => .ok (.vref a, h')

/-- The inner loop (source lines 52-54):
`for (const errorName in errors) { BaseClass.prototype[methodName][errorName] = errors[errorName]; }`
Each iteration re-evaluates `BaseClass.prototype` and the method lookup in
the current heap, then evaluates the right-hand side, then assigns. -/
def slotLoop (cls : Nat) (methodName : String) (errs : JSValue) :
    Heap → List String → Except JSException Heap
  | h, [] => .ok h
  | h, errorName :: rest =>
    match getPropV h (getProp h cls "prototype") methodName with
    | .error e => .error e
    | .ok base =>
      match getPropV h errs errorName with
      | .error e => .error e
      | .ok v =>
        match setPropV h base errorName v with
        | .error e => .error e
        | .ok h' => slotLoop cls methodName errs h' rest

/-- The outer loop (source lines 49-56):
`for (const methodName in errorConfig) { if (typeof BaseClass.prototype[methodName] === 'function') { const errors = errorConfig[methodName]; for (const errorName in errors) { ... } } }` -/
def methodLoop (cls : Nat) (cfg : JSValue) :
    Heap → List String → Except JSException Heap
  | h, [] => .ok h
  | h, methodName :: rest =>
    match getPropV h (getProp h cls "prototype") methodName with
    | .error e => .error e
    | .ok mval =>
      if isFunctionValue h mval then
        match getPropV h cfg methodName with
        | .error e => .error e
        | .ok errs =>
          match slotLoop cls methodName errs h (forInKeys h errs) with
          | .error e => .error e
          | .ok h' => methodLoop cls cfg h' rest
      else
        methodLoop cls cfg h rest

/-- Source lines 41-63: the runtime implementation of `withErrors(target, config)`.
If `isClass(target)`, walk the two-level config over the prototype's
methods and return the class; otherwise `return Object.assign(fn, errors)`.
`isClass` is false on every non-reference value, so those dispatch to
`Object.assign`. -/
def withErrors (h : Heap) (target config : JSValue) : Except JSException (JSValue × Heap) :=
  match target with
  | .vref a =>
    if isClass h (.vref a) then
      match methodLoop a config h (forInKeys h config) with
      | .error e => .error e
      | .ok h' => .ok (.vref a, h')
    else
      objectAssign h (.vref a) config
  | t => objectAssign h t config

/-- The addresses reachable from `a` along prototype links (fueled). -/
def chainAddrsFuel (h : Heap) : Nat → Nat → List Nat
  | 0, _ => []
  | fuel + 1, a =>
    a :: (match h.get? a with
      | none => []
      | some o =>
        match o.proto with
        | none => []
        | some q => chainAddrsFuel h fuel q)

/-- The prototype chain of `a`, starting with `a` itself. -/
def chainAddrs (h : Heap) (a : Nat) : List Nat :=
  chainAddrsFuel h (h.length + 1) a

/-- The value stored under the own property `k` of the object at `a`. -/
def ownVal (h : Heap) (a : Nat) (k : String) : Option JSValue :=
  match h.get? a with
  | some o => (getOwn o k).map (fun d => d.value)
  | none => none

/-- The second-level value `config[m]` the class branch binds to `errors`,
for a config that is not `null`/`undefined` (the only shapes that reach the
binding, because `for-in` yields no key otherwise). -/
def cfgEntry (h : Heap) (cfg : JSValue) (m : String) : JSValue :=
  match cfg with
  | .vref e => getProp h e m
  | .vstr s => stringProp s m
  | _ => .vundefined

/-- The function objects the class branch mutates: for each config key in
order, the prototype-chain resolution of that method name, kept when it is
callable. -/
def writeTargets (h : Heap) (p : Nat) (ks : List String) : List Nat :=
  ks.filterMap (fun m =>
    match getProp h p m with
    | .vref f => if isCallableRef h f then some f else none
    | _ => none)

/-- Decidable equality for `Except`, so concrete runs can be settled by `decide`. -/
def exceptDecEq {α β : Type} [DecidableEq α] [DecidableEq β] : DecidableEq (Except α β)
  | .error a, .error b =>
    match decEq a b with
    | isTrue h => isTrue (by rw [h])
    | isFalse h => isFalse (fun hh => h (by cases hh; rfl))
  | .error _, .ok _ => isFalse (by intro h; cases h)
  | .ok _, .error _ => isFalse (by intro h; cases h)
  | .ok a, .ok b =>
    match decEq a b with
    | isTrue h => isTrue (by rw [h])
    | isFalse h => isFalse (fun hh => h (by cases hh; rfl))

instance {α β : Type} [DecidableEq α] [DecidableEq β] : DecidableEq (Except α β) :=
  exceptDecEq

/-- Modelled from the spec (refinement side of the Mode Discriminator rule):
"a value is classified as ClassConstructor if and only if it is an
invocable/constructible value whose textual/structural form identifies it as
a class definition".  A JavaScript class definition's source text begins
with the keyword `class` followed either by a space (named classes,
`class A {}`) or immediately by the class body (anonymous class
expressions, `class{}`). -/
def textualClassForm (s : String) : Bool :=
  strStartsWith s "class " || strStartsWith s "class\x7b"

/-- Example heap, callable mode: a function at 0, a config at 1 binding the
slot `E` to the error class at 2, a second config at 3 binding `E` to the
error class at 4. -/
def fnHeap : Heap := [
  { callable := true, sourceText := "() => { throw new test.E(); }" },
  { props := [("E", { value := .vref 2 })] },
  { callable := true, sourceText := "class E extends Error {}" },
  { props := [("E", { value := .vref 4 })] },
  { callable := true, sourceText := "class B extends Error {}" }
]

/-- `fnHeap` after `withErrors(fn, { E })`: the slot landed on the function. -/
def fnHeapA : Heap := [
  { callable := true, sourceText := "() => { throw new test.E(); }",
    props := [("E", { value := .vref 2 })] },
  { props := [("E", { value := .vref 2 })] },
  { callable := true, sourceText := "class E extends Error {}" },
  { props := [("E", { value := .vref 4 })] },
  { callable := true, sourceText := "class B extends Error {}" }
]

/-- `fnHeapA` after the second call `withErrors(fn, { E: B })`: overwritten. -/
def fnHeapB : Heap := [
  { callable := true, sourceText := "() => { throw new test.E(); }",
    props := [("E", { value := .vref 4 })] },
  { props := [("E", { value := .vref 2 })] },
  { callable := true, sourceText := "class E extends Error {}" },
  { props := [("E", { value := .vref 4 })] },
  { callable := true, sourceText := "class B extends Error {}" }
]

/-- Example heap, class mode: a class at 0 whose prototype (1) holds the
method `m` (2); a config at 3 maps `m` to the slots object at 4 binding `E`
to the error class at 5; 6 is an instance; 7/8/9 are a second config
binding `E` to a different error class. -/
def clsHeap : Heap := [
  { callable := true, sourceText := "class C { m() { throw new E(); } }",
    props := [("prototype", { value := .vref 1, enumerable := false, writable := false })] },
  { props := [("m", { value := .vref 2, enumerable := false })] },
  { callable := true, sourceText := "m() { throw new E(); }" },
  { props := [("m", { value := .vref 4 })] },
  { props := [("E", { value := .vref 5 })] },
  { callable := true, sourceText := "class E extends Error {}" },
  { proto := some 1 },
  { props := [("m", { value := .vref 8 })] },
  { props := [("E", { value := .vref 9 })] },
  { callable := true, sourceText := "class E2 extends Error {}" }
]

/-- Example heap, inherited method: a subclass at 0 whose prototype (1)
chains to the superclass prototype (2) owning the shared method `m` (3);
config 4 maps `m` to the slots object 5 binding `E` to the class at 6;
7 is a superclass instance, 8 another subclass prototype chaining to 2,
and 9 an instance of that other subclass. -/
def subHeap : Heap := [
  { callable := true, sourceText := "class S extends Base {}",
    props := [("prototype", { value := .vref 1, enumerable := false, writable := false })] },
  { proto := some 2 },
  { props := [("m", { value := .vref 3, enumerable := false })] },
  { callable := true, sourceText := "m() {}" },
  { props := [("m", { value := .vref 5 })] },
  { props := [("E", { value := .vref 6 })] },
  { callable := true, sourceText := "class E extends Error {}" },
  { proto := some 2 },
  { proto := some 2 },
  { proto := some 8 }
]

/-- Example heap, inherited config keys: the class/prototype/method of
`clsHeap` at 0-2; a config object at 4 with no own property whose prototype
(3) owns the enumerable key `m`; the slots object at 5 with no own property
whose prototype (6) owns the enumerable key `E` bound to the class at 7;
a plain arrow function at 8. -/
def enumHeap : Heap := [
  { callable := true, sourceText := "class C { m() {} }",
    props := [("prototype", { value := .vref 1, enumerable := false, writable := false })] },
  { props := [("m", { value := .vref 2, enumerable := false })] },
  { callable := true, sourceText := "m() {}" },
  { props := [("m", { value := .vref 5 })] },
  { proto := some 3 },
  { proto := some 6 },
  { props := [("E", { value := .vref 7 })] },
  { callable := true, sourceText := "class E extends Error {}" },
  { callable := true, sourceText := "() => {}" }
]

/-- `enumHeap` after the class-mode call with the inherited-keys config:
the method function gained the slot `E`. -/
def enumHeapA : Heap := [
  { callable := true, sourceText := "class C { m() {} }",
    props := [("prototype", { value := .vref 1, enumerable := false, writable := false })] },
  { props := [("m", { value := .vref 2, enumerable := false })] },
  { callable := true, sourceText := "m() {}",
    props := [("E", { value := .vref 7 })] },
  { props := [("m", { value := .vref 5 })] },
  { proto := some 3 },
  { proto := some 6 },
  { props := [("E", { value := .vref 7 })] },
  { callable := true, sourceText := "class E extends Error {}" },
  { callable := true, sourceText := "() => {}" }
]

/-- How one object may change during a class-mode run: every own property
either kept its exact descriptor or now holds a writable data property
(the only kind the slot writes create). -/
def DescEvolve (o o' : JSObject) : Prop :=
  ∀ k, getOwn o' k = getOwn o k ∨ ∃ d, getOwn o' k = some d ∧ d.writable = true

/-- How the heap may change during a class-mode run whose write targets are
the addresses in `F`: same size, untouched outside `F`, and every object
keeps its prototype link, callability and source text, with own properties
evolving only by writable-value writes. -/
def WriteEvolve (h : Heap) (F : List Nat) (h' : Heap) : Prop :=
  h'.length = h.length ∧
  (∀ b, b ∉ F → h'.get? b = h.get? b) ∧
  (∀ b o, h.get? b = some o → ∃ o', h'.get? b = some o' ∧ o'.proto = o.proto ∧
    o'.callable = o.callable ∧ o'.sourceText = o.sourceText ∧ DescEvolve o o')

/-- The well-formed shape under which a class-mode call is guaranteed not
to throw: the target is a genuine class (callable, class-form source text,
object-valued own `prototype`); none of the configured method functions —
the write targets — lies on the prototype chain of the class constructor,
of the prototype object, of the config object, or of any slots object; and
no slot name collides with a non-writable property reachable from its
method function. -/
def refAddr : JSValue → List Nat
  | .vref a => [a]
  | _ => []

def ClassCallSafe (h : Heap) (c p : Nat) (cfg : JSValue) : Prop :=
  ∃ oc dp,
    h.get? c = some oc ∧ oc.callable = true ∧
    strStartsWith oc.sourceText "class " = true ∧
    getOwn oc "prototype" = some dp ∧ dp.value = .vref p ∧
    c ∉ writeTargets h p (forInKeys h cfg) ∧
    (∀ x ∈ chainAddrs h p, x ∉ writeTargets h p (forInKeys h cfg)) ∧
    (∀ e ∈ refAddr cfg, ∀ x ∈ chainAddrs h e, x ∉ writeTargets h p (forInKeys h cfg)) ∧
    (∀ m ∈ forInKeys h cfg, ∀ g ∈ refAddr (cfgEntry h cfg m),
      ∀ x ∈ chainAddrs h g, x ∉ writeTargets h p (forInKeys h cfg)) ∧
    (∀ m ∈ forInKeys h cfg, ∀ k ∈ forInKeys h (cfgEntry h cfg m),
      ∀ f ∈ refAddr (getProp h p m),
        isCallableRef h f = true → setAllowed h f k = true)

/-- Updating an own property keeps the object callable or not. -/
theorem setOwnProp_callable (o : JSObject) (k : String) (v : JSValue) :
    (setOwnProp o k v).callable = o.callable := by
  unfold setOwnProp; split <;> rfl

/-- Updating an own property keeps the source text. -/
theorem setOwnProp_sourceText (o : JSObject) (k : String) (v : JSValue) :
    (setOwnProp o k v).sourceText = o.sourceText := by
  unfold setOwnProp; split <;> rfl

/-- Updating an own property keeps the prototype link. -/
theorem setOwnProp_proto (o : JSObject) (k : String) (v : JSValue) :
    (setOwnProp o k v).proto = o.proto := by
  unfold setOwnProp; split <;> rfl

theorem find?_append_none {A : Type} (p : A → Bool) (l₁ l₂ : List A)
    (h : l₁.find? p = none) : (l₁ ++ l₂).find? p = l₂.find? p := by
  induction l₁ with
  | nil => rfl
  | cons hd tl ih =>
    cases hp : p hd with
    | true =>
      rw [List.find?_cons_of_pos _ hp] at h
      exact absurd h (by simp)
    | false =>
      rw [List.find?_cons_of_neg _ (by simp [hp])] at h
      rw [List.cons_append, List.find?_cons_of_neg _ (by simp [hp])]
      exact ih h

theorem find?_value_map_set (l : List (String × PropDesc)) (k : String) (v : JSValue)
    (h : l.any (fun p => p.1 = k) = true) :
    ∃ d, (l.map (fun p => if p.1 = k then (p.1, { p.2 with value := v }) else p)).find?
        (fun p => p.1 = k) = some (k, d) ∧ d.value = v := by
  induction l with
  | nil => simp at h
  | cons hd tl ih =>
    by_cases hk : hd.1 = k
    · refine ⟨{ hd.2 with value := v }, ?_, rfl⟩
      rw [List.map_cons, if_pos hk]
      rw [List.find?_cons_of_pos _ (by simpa using hk)]
      rw [hk]
    · have h' : tl.any (fun p => p.1 = k) = true := by
        rcases List.any_eq_true.mp h with ⟨x, hx, hpx⟩
        rcases List.mem_cons.mp hx with rfl | hmem
        · exact absurd (of_decide_eq_true hpx) hk
        · exact List.any_eq_true.mpr ⟨x, hmem, hpx⟩
      obtain ⟨d, hd1, hd2⟩ := ih h'
      refine ⟨d, ?_, hd2⟩
      rw [List.map_cons, if_neg hk]
      rw [List.find?_cons_of_neg _ (by simpa using hk)]
      exact hd1

theorem find?_key_eq_none (l : List (String × PropDesc)) (k : String)
    (h : l.any (fun p => p.1 = k) ≠ true) :
    l.find? (fun p => p.1 = k) = none := by
  cases hf : l.find? (fun p => p.1 = k) with
  | none => rfl
  | some x =>
    have hmem := List.mem_of_find?_eq_some hf
    have hpx := List.find?_some hf
    exact absurd (List.any_eq_true.mpr ⟨x, hmem, hpx⟩) h

/-- After `setOwnProp o k v`, the own property `k` exists and stores `v`. -/
theorem getOwn_setOwnProp_self (o : JSObject) (k : String) (v : JSValue) :
    ∃ d, getOwn (setOwnProp o k v) k = some d ∧ d.value = v := by
  unfold setOwnProp getOwn
  by_cases h : o.props.any (fun p => p.1 = k) = true
  · rw [if_pos h]
    obtain ⟨d, hd1, hd2⟩ := find?_value_map_set o.props k v h
    exact ⟨d, by rw [hd1]; rfl, hd2⟩
  · rw [if_neg h]
    refine ⟨{ value := v }, ?_, rfl⟩
    have hnone := find?_key_eq_none o.props k h
    show ((o.props ++ [(k, ({ value := v } : PropDesc))]).find? (fun p => p.1 = k)).map (fun p => (p.2 : PropDesc)) = _
    rw [find?_append_none _ _ _ hnone]
    rw [List.find?_cons_of_pos _ (by simp)]
    rfl

theorem find?_key_map_set_ne (l : List (String × PropDesc)) (k k' : String) (v : JSValue)
    (hne : k' ≠ k) :
    (l.map (fun p => if p.1 = k then (p.1, { p.2 with value := v }) else p)).find?
        (fun p => p.1 = k') = l.find? (fun p => p.1 = k') := by
  induction l with
  | nil => rfl
  | cons hd tl ih =>
    rw [List.map_cons]
    by_cases hk : hd.1 = k
    · have hne' : ¬ hd.1 = k' := by rw [hk]; exact fun hh => hne hh.symm
      rw [if_pos hk]
      rw [List.find?_cons_of_neg _ (by simpa using hne')]
      rw [List.find?_cons_of_neg _ (by simpa using hne')]
      exact ih
    · rw [if_neg hk]
      by_cases hk' : hd.1 = k'
      · rw [List.find?_cons_of_pos _ (by simpa using hk')]
        rw [List.find?_cons_of_pos _ (by simpa using hk')]
      · rw [List.find?_cons_of_neg _ (by simpa using hk')]
        rw [List.find?_cons_of_neg _ (by simpa using hk')]
        exact ih

theorem find?_append_single_ne (l : List (String × PropDesc)) (k k' : String) (d : PropDesc)
    (hne : k' ≠ k) :
    (l ++ [(k, d)]).find? (fun p => p.1 = k') = l.find? (fun p => p.1 = k') := by
  induction l with
  | nil =>
    show List.find? _ [(k, d)] = none
    rw [List.find?_cons_of_neg _ (by simpa using fun hh : k = k' => hne hh.symm)]
    rfl
  | cons hd tl ih =>
    rw [List.cons_append]
    by_cases hp : hd.1 = k'
    · rw [List.find?_cons_of_pos _ (by simpa using hp)]
      rw [List.find?_cons_of_pos _ (by simpa using hp)]
    · rw [List.find?_cons_of_neg _ (by simpa using hp)]
      rw [List.find?_cons_of_neg _ (by simpa using hp)]
      exact ih

/-- `setOwnProp` at key `k` does not change the own property at any other key. -/
theorem getOwn_setOwnProp_ne (o : JSObject) (k k' : String) (v : JSValue)
    (hne : k' ≠ k) : getOwn (setOwnProp o k v) k' = getOwn o k' := by
  unfold setOwnProp getOwn
  by_cases h : o.props.any (fun p => p.1 = k) = true
  · rw [if_pos h]
    show ((o.props.map _).find? _).map _ = _
    rw [find?_key_map_set_ne o.props k k' v hne]
  · rw [if_neg h]
    show ((o.props ++ [(k, ({ value := v } : PropDesc))]).find? (fun p => p.1 = k')).map (fun p => (p.2 : PropDesc)) = _
    rw [find?_append_single_ne o.props k k' _ hne]

/-- `heapSetAt` keeps the heap size. -/
theorem length_heapSetAt (h : Heap) (a : Nat) (o : JSObject) :
    (heapSetAt h a o).length = h.length := by
  induction h generalizing a with
  | nil => rfl
  | cons hd tl ih =>
    cases a with
    | zero => rfl
    | succ n => simp only [heapSetAt, List.length_cons, ih]

/-- Reading back the replaced address. -/
theorem get?_heapSetAt_self (h : Heap) (a : Nat) (o o₀ : JSObject)
    (hh : h.get? a = some o₀) : (heapSetAt h a o).get? a = some o := by
  induction h generalizing a with
  | nil => simp [List.get?] at hh
  | cons hd tl ih =>
    cases a with
    | zero => rfl
    | succ n => exact ih n (by simpa [List.get?] using hh)

/-- Reading any other address is unchanged. -/
theorem get?_heapSetAt_ne (h : Heap) (a b : Nat) (o : JSObject)
    (hne : b ≠ a) : (heapSetAt h a o).get? b = h.get? b := by
  induction h generalizing a b with
  | nil => rfl
  | cons hd tl ih =>
    cases a with
    | zero =>
      cases b with
      | zero => exact absurd rfl hne
      | succ m => rfl
    | succ n =>
      cases b with
      | zero => rfl
      | succ m => exact ih n m (fun hh => hne (by rw [hh]))

theorem length_heapUpdate (h : Heap) (a : Nat) (f : JSObject → JSObject) :
    (heapUpdate h a f).length = h.length := by
  unfold heapUpdate
  cases hh : h.get? a with
  | none => rfl
  | some o => exact length_heapSetAt h a (f o)

theorem get?_heapUpdate_self (h : Heap) (a : Nat) (f : JSObject → JSObject) (o : JSObject)
    (hh : h.get? a = some o) : (heapUpdate h a f).get? a = some (f o) := by
  unfold heapUpdate
  rw [hh]
  exact get?_heapSetAt_self h a (f o) o hh

theorem get?_heapUpdate_ne (h : Heap) (a b : Nat) (f : JSObject → JSObject)
    (hne : b ≠ a) : (heapUpdate h a f).get? b = h.get? b := by
  unfold heapUpdate
  cases hh : h.get? a with
  | none => rfl
  | some o => exact get?_heapSetAt_ne h a b (f o) hne

theorem heapUpdate_dangling (h : Heap) (a : Nat) (f : JSObject → JSObject)
    (hh : h.get? a = none) : heapUpdate h a f = h := by
  unfold heapUpdate
  rw [hh]

theorem getPropFuel_succ_some (h : Heap) (fuel a : Nat) (k : String) (o : JSObject)
    (ha : h.get? a = some o) :
    getPropFuel h (fuel + 1) a k =
      (match getOwn o k with
       | some d => d.value
       | none =>
         match o.proto with
         | none => .vundefined
         | some q => getPropFuel h fuel q k) := by
  simp only [getPropFuel, ha]

theorem getPropFuel_succ_none (h : Heap) (fuel a : Nat) (k : String)
    (ha : h.get? a = none) : getPropFuel h (fuel + 1) a k = .vundefined := by
  simp only [getPropFuel, ha]

theorem getPropFuel_own (h : Heap) (fuel a : Nat) (k : String) (o : JSObject) (d : PropDesc)
    (ha : h.get? a = some o) (hd : getOwn o k = some d) :
    getPropFuel h (fuel + 1) a k = d.value := by
  rw [getPropFuel_succ_some h fuel a k o ha]
  simp only [hd]

theorem getPropFuel_chain (h : Heap) (fuel a q : Nat) (k : String) (o : JSObject)
    (ha : h.get? a = some o) (hown : getOwn o k = none) (hq : o.proto = some q) :
    getPropFuel h (fuel + 1) a k = getPropFuel h fuel q k := by
  rw [getPropFuel_succ_some h fuel a k o ha]
  simp only [hown, hq]

theorem getPropFuel_end (h : Heap) (fuel a : Nat) (k : String) (o : JSObject)
    (ha : h.get? a = some o) (hown : getOwn o k = none) (hq : o.proto = none) :
    getPropFuel h (fuel + 1) a k = .vundefined := by
  rw [getPropFuel_succ_some h fuel a k o ha]
  simp only [hown, hq]

/-- An own property resolves immediately, whatever the chain beyond. -/
theorem getProp_own (h : Heap) (a : Nat) (k : String) (o : JSObject) (d : PropDesc)
    (ha : h.get? a = some o) (hd : getOwn o k = some d) :
    getProp h a k = d.value := by
  unfold getProp
  exact getPropFuel_own h h.length a k o d ha hd

theorem setAllowedFuel_succ_some (h : Heap) (fuel a : Nat) (k : String) (o : JSObject)
    (ha : h.get? a = some o) :
    setAllowedFuel h (fuel + 1) a k =
      (match getOwn o k with
       | some d => d.writable
       | none =>
         match o.proto with
         | none => true
         | some q => setAllowedFuel h fuel q k) := by
  simp only [setAllowedFuel, ha]

theorem setAllowedFuel_succ_none (h : Heap) (fuel a : Nat) (k : String)
    (ha : h.get? a = none) : setAllowedFuel h (fuel + 1) a k = true := by
  simp only [setAllowedFuel, ha]

/-- `isClass` holds on a callable object whose source text starts with the
seven characters of `class` followed by a space. -/
theorem isClass_of (h : Heap) (c : Nat) (oc : JSObject)
    (hc : h.get? c = some oc) (hcall : oc.callable = true)
    (hsrc : strStartsWith oc.sourceText "class " = true) :
    isClass h (.vref c) = true := by
  simp only [isClass, hc, hcall, hsrc, Bool.and_self]

/-- Property access through an object reference never throws. -/
theorem getPropV_ref (h : Heap) (a : Nat) (k : String) :
    getPropV h (.vref a) k = .ok (getProp h a k) := rfl

/-- One full run of the class branch for a config that enumerates a single
method name carrying a single slot name: the run performs exactly one
assignment, on the resolved method function. -/
theorem withErrors_single (h : Heap) (c p f : Nat) (cfg errs v : JSValue) (m k : String)
    (oc : JSObject) (dp : PropDesc)
    (hc : h.get? c = some oc) (hcall : oc.callable = true)
    (hsrc : strStartsWith oc.sourceText "class " = true)
    (hproto : getOwn oc "prototype" = some dp) (hpv : dp.value = .vref p)
    (hK : forInKeys h cfg = [m])
    (hm : getProp h p m = .vref f)
    (hf : isCallableRef h f = true)
    (hcfgm : getPropV h cfg m = .ok errs)
    (hS : forInKeys h errs = [k])
    (hek : getPropV h errs k = .ok v)
    (hallow : setAllowed h f k = true) :
    withErrors h (.vref c) cfg = .ok (.vref c, heapUpdate h f (fun o => setOwnProp o k v)) := by
  have hclass := isClass_of h c oc hc hcall hsrc
  have hcp : getProp h c "prototype" = .vref p := by
    rw [getProp_own h c "prototype" oc dp hc hproto, hpv]
  have hfun : isFunctionValue h (.vref f) = true := by
    simp only [isFunctionValue, hf]
  simp only [withErrors, hclass, if_true, hK]
  simp only [methodLoop, hcp, getPropV_ref, hm]
  simp only [hfun, if_true, hcfgm, hS]
  simp only [slotLoop, hcp, getPropV_ref, hm, hek]
  simp only [setPropV, setRef, hallow, if_true]

theorem get?_some_lt {A : Type} (l : List A) (n : Nat) (x : A)
    (h : l.get? n = some x) : n < l.length := by
  induction l generalizing n with
  | nil => simp [List.get?] at h
  | cons hd tl ih =>
    cases n with
    | zero => simp
    | succ m =>
      have := ih m (by simpa [List.get?] using h)
      simp only [List.length_cons]
      omega

/-- A property provided by the direct prototype resolves through one chain step. -/
theorem getProp_step1 (h : Heap) (a q : Nat) (k : String) (o oq : JSObject) (d : PropDesc)
    (ha : h.get? a = some o) (hown : getOwn o k = none) (hq : o.proto = some q)
    (hqo : h.get? q = some oq) (hd : getOwn oq k = some d) :
    getProp h a k = d.value := by
  unfold getProp
  have hlt := get?_some_lt h a o ha
  obtain ⟨n, hn⟩ : ∃ n, h.length = n + 1 := ⟨h.length - 1, by omega⟩
  rw [hn]
  rw [getPropFuel_chain h (n + 1) a q k o ha hown hq]
  exact getPropFuel_own h n q k oq d hqo hd

/-- A property provided two chain steps away resolves as well. -/
theorem getProp_step2 (h : Heap) (a q1 q2 : Nat) (k : String) (o o1 o2 : JSObject)
    (d : PropDesc)
    (ha : h.get? a = some o) (hown : getOwn o k = none) (hq1 : o.proto = some q1)
    (h1 : h.get? q1 = some o1) (hown1 : getOwn o1 k = none) (hq2 : o1.proto = some q2)
    (h2 : h.get? q2 = some o2) (hd : getOwn o2 k = some d) :
    getProp h a k = d.value := by
  unfold getProp
  have hlta := get?_some_lt h a o ha
  have hlt2 := get?_some_lt h q2 o2 h2
  have hne : a ≠ q2 := by
    intro hh
    rw [hh, h2] at ha
    cases ha
    rw [hd] at hown
    cases hown
  obtain ⟨n, hn⟩ : ∃ n, h.length = n + 2 := ⟨h.length - 2, by omega⟩
  rw [hn]
  rw [getPropFuel_chain h (n + 2) a q1 k o ha hown hq1]
  rw [getPropFuel_chain h (n + 1) q1 q2 k o1 h1 hown1 hq2]
  exact getPropFuel_own h n q2 k o2 d h2 hd

/-- Writing key `kw` anywhere in the heap leaves every fueled lookup of a
different key unchanged. -/
theorem getPropFuel_after_write_ne (h : Heap) (b : Nat) (kw : String) (v : JSValue)
    (k : String) (hk : k ≠ kw) :
    ∀ fuel a, getPropFuel (heapUpdate h b (fun o => setOwnProp o kw v)) fuel a k
      = getPropFuel h fuel a k := by
  intro fuel
  induction fuel with
  | zero => intro a; rfl
  | succ n ih =>
    intro a
    by_cases hab : a = b
    · subst hab
      cases hh : h.get? a with
      | none => rw [heapUpdate_dangling h a _ hh]
      | some o =>
        have h1 : (heapUpdate h a (fun o => setOwnProp o kw v)).get? a
            = some (setOwnProp o kw v) := get?_heapUpdate_self h a _ o hh
        rw [getPropFuel_succ_some _ n a k _ h1, getPropFuel_succ_some h n a k o hh]
        rw [getOwn_setOwnProp_ne o kw k v hk, setOwnProp_proto]
        cases getOwn o k with
        | some d => rfl
        | none =>
          cases o.proto with
          | none => rfl
          | some q => exact ih q
    · cases hh : h.get? a with
      | none =>
        rw [getPropFuel_succ_none _ n a k
          (by rw [get?_heapUpdate_ne h b a _ hab]; exact hh)]
        rw [getPropFuel_succ_none h n a k hh]
      | some o =>
        rw [getPropFuel_succ_some _ n a k o
          (by rw [get?_heapUpdate_ne h b a _ hab]; exact hh)]
        rw [getPropFuel_succ_some h n a k o hh]
        cases getOwn o k with
        | some d => rfl
        | none =>
          cases o.proto with
          | none => rfl
          | some q => exact ih q

/-- The unfueled version of the key-frame property. -/
theorem getProp_after_write_ne (h : Heap) (b : Nat) (kw : String) (v : JSValue)
    (a : Nat) (k : String) (hk : k ≠ kw) :
    getProp (heapUpdate h b (fun o => setOwnProp o kw v)) a k = getProp h a k := by
  unfold getProp
  rw [length_heapUpdate]
  exact getPropFuel_after_write_ne h b kw v k hk (h.length + 1) a

/-- C1 counterexample: the claim says `withErrors(target, config)` never
throws under any input shape, including a non-function target.  On the
target `null` with a perfectly ordinary config object the callable branch
runs `Object.assign(null, config)`, which throws a TypeError: the call does
not complete. -/
theorem C1_counterexample :
    withErrors [({ props := [("E", { value := .vnum 1 })] } : JSObject)] .vnull (.vref 0)
      = .error .typeError := by decide

/-- C2: for every target that is an object reference (in particular every
callable and every class constructor) and every config value, whenever
`withErrors` returns, the returned value is reference-identical to the
target: the same function object in callable mode and the same constructor
(not a copy or a subclass) in class mode; no branch ever builds a fresh
result object for a reference target. -/
theorem C2_identity_preserved (h : Heap) (a : Nat) (cfg : JSValue)
    (res : JSValue × Heap) (hok : withErrors h (.vref a) cfg = .ok res) :
    res.1 = .vref a := by
  simp only [withErrors] at hok
  by_cases hcl : isClass h (.vref a) = true
  · rw [if_pos hcl] at hok
    cases hml : methodLoop a cfg h (forInKeys h cfg) with
    | error e =>
      simp only [hml] at hok
      exact Except.noConfusion hok
    | ok h' =>
      simp only [hml] at hok
      cases hok
      rfl
  · rw [if_neg hcl] at hok
    simp only [objectAssign] at hok
    cases haf : assignFold a cfg h (srcEnumKeys h cfg) with
    | error e =>
      simp only [haf] at hok
      exact Except.noConfusion hok
    | ok h' =>
      simp only [haf] at hok
      cases hok
      rfl

/-- C2 witness: the callable-mode call on the example heap returns the very
function reference it was given. -/
theorem C2_witness : ((JSValue.vref 0, fnHeapA) : JSValue × Heap).1 = JSValue.vref 0 :=
  C2_identity_preserved fnHeap 0 (.vref 1) (.vref 0, fnHeapA) (by decide)

/-- C5: for a class constructor and a config whose (single) key names a
method that is absent from the prototype's method table or present but not
callable, the call skips the key entirely: it neither throws nor touches
the heap, so no property of that name is created on the constructor, the
prototype, or any instance. -/
theorem C5_skip_missing_method (h : Heap) (c p : Nat) (cfg : JSValue) (m : String)
    (oc : JSObject) (dp : PropDesc)
    (hc : h.get? c = some oc) (hcall : oc.callable = true)
    (hsrc : strStartsWith oc.sourceText "class " = true)
    (hproto : getOwn oc "prototype" = some dp) (hpv : dp.value = .vref p)
    (hK : forInKeys h cfg = [m])
    (hnotfun : isFunctionValue h (getProp h p m) = false) :
    withErrors h (.vref c) cfg = .ok (.vref c, h) := by
  have hclass := isClass_of h c oc hc hcall hsrc
  have hcp : getProp h c "prototype" = .vref p := by
    rw [getProp_own h c "prototype" oc dp hc hproto, hpv]
  simp only [withErrors, hclass, if_true, hK]
  simp only [methodLoop, hcp, getPropV_ref, hnotfun]
  rw [if_neg (by simp)]

/-- C5 witness: annotating a method name that does not exist on the
prototype leaves the heap untouched. -/
theorem C5_witness :
    withErrors [
      ({ callable := true, sourceText := "class C { m() {} }",
         props := [("prototype", { value := .vref 1, enumerable := false, writable := false })] } : JSObject),
      ({ props := [("m", { value := .vref 2, enumerable := false })] } : JSObject),
      ({ callable := true, sourceText := "m() {}" } : JSObject),
      ({ props := [("noSuchMethod", { value := .vref 4 })] } : JSObject),
      ({ props := [("E", { value := .vnum 1 })] } : JSObject)
    ] (.vref 0) (.vref 3) = .ok (.vref 0, [
      ({ callable := true, sourceText := "class C { m() {} }",
         props := [("prototype", { value := .vref 1, enumerable := false, writable := false })] } : JSObject),
      ({ props := [("m", { value := .vref 2, enumerable := false })] } : JSObject),
      ({ callable := true, sourceText := "m() {}" } : JSObject),
      ({ props := [("noSuchMethod", { value := .vref 4 })] } : JSObject),
      ({ props := [("E", { value := .vnum 1 })] } : JSObject)
    ]) :=
  C5_skip_missing_method _ 0 1 (.vref 3) "noSuchMethod"
    ({ callable := true, sourceText := "class C { m() {} }",
       props := [("prototype", { value := .vref 1, enumerable := false, writable := false })] } : JSObject)
    ({ value := .vref 1, enumerable := false, writable := false } : PropDesc)
    (by decide) (by decide) (by decide) (by decide) (by decide) (by decide) (by decide)

/-- C6 counterexample: the claim says the discriminator classifies a value
as ClassConstructor if and only if it is a function whose textual form
identifies it as a class definition.  The anonymous class expression
`class{}` is textually a class definition (spec side, `textualClassForm`),
yet `isClass` tests only for the prefix `class` followed by a space and
classifies it as Callable: the equivalence fails at this input. -/
theorem C6_counterexample :
    ¬ (isClass [({ callable := true, sourceText := "class{}" } : JSObject)] (.vref 0) = true ↔
        (isFunctionValue [({ callable := true, sourceText := "class{}" } : JSObject)] (.vref 0) = true ∧
         textualClassForm "class{}" = true)) := by decide

/-- C6 amended: the discriminator classifies a value as ClassConstructor if
and only if it is a reference to a callable object whose source text starts
with the five letters of `class` followed by one space; every other value —
arrow functions and anonymous callables included, whose source text never
starts that way — is classified as Callable, and the discriminator reads
the value without mutating it (it is a pure function of heap and value). -/
theorem C6_amended_discriminator (h : Heap) (v : JSValue) :
    isClass h v = true ↔
      ∃ a o, v = .vref a ∧ h.get? a = some o ∧ o.callable = true ∧
        strStartsWith o.sourceText "class " = true := by
  constructor
  · intro hi
    cases v with
    | vref a =>
      cases hh : h.get? a with
      | none =>
        simp only [isClass, hh] at hi
        exact Bool.noConfusion hi
      | some o =>
        simp only [isClass, hh, Bool.and_eq_true] at hi
        exact ⟨a, o, rfl, hh, hi.1, hi.2⟩
    | vundefined => exact Bool.noConfusion hi
    | vnull => exact Bool.noConfusion hi
    | vbool b => exact Bool.noConfusion hi
    | vnum n => exact Bool.noConfusion hi
    | vstr s => exact Bool.noConfusion hi
  · rintro ⟨a, o, rfl, hh, h1, h2⟩
    exact isClass_of h a o hh h1 h2

/-- C10: the two modes enumerate config keys differently.  On `enumHeap`
the config object (4) has no own property at all: its method key `m` and
the slots object's key `E` are both inherited from the config objects'
prototypes.  Class mode walks both levels with `for-in`, finds the
inherited keys, and annotates the method function; callable mode uses
`Object.assign`, whose own-keys enumeration is empty, so the same config
leaves the function untouched. -/
theorem C10_enumeration_difference :
    withErrors enumHeap (.vref 0) (.vref 4) = .ok (.vref 0, enumHeapA) ∧
    getProp enumHeapA 2 "E" = .vref 7 ∧
    forInKeys enumHeap (.vref 4) = ["m"] ∧
    forInKeys enumHeap (.vref 5) = ["E"] ∧
    srcEnumKeys enumHeap (.vref 4) = [] ∧
    withErrors enumHeap (.vref 8) (.vref 4) = .ok (.vref 8, enumHeap) ∧
    getProp enumHeap 8 "m" = .vundefined := by decide

/-- After one write of key `kw` on object `b`, every object of the heap is
still present, with other keys, prototype link, callability and source text
unchanged. -/
theorem getOwn_after_write (h : Heap) (b : Nat) (kw : String) (v : JSValue) (a : Nat)
    (oa : JSObject) (ha : h.get? a = some oa) :
    ∃ oa', (heapUpdate h b (fun o => setOwnProp o kw v)).get? a = some oa' ∧
      (∀ k, k ≠ kw → getOwn oa' k = getOwn oa k) ∧ oa'.proto = oa.proto ∧
      oa'.callable = oa.callable ∧ oa'.sourceText = oa.sourceText := by
  by_cases hab : a = b
  · subst hab
    exact ⟨setOwnProp oa kw v, get?_heapUpdate_self h a _ oa ha,
      fun k hk => getOwn_setOwnProp_ne oa kw k v hk,
      setOwnProp_proto oa kw v, setOwnProp_callable oa kw v, setOwnProp_sourceText oa kw v⟩
  · exact ⟨oa, by rw [get?_heapUpdate_ne h b a _ hab]; exact ha,
      fun k hk => rfl, rfl, rfl, rfl⟩

/-- C4: for a class constructor whose prototype's own method table holds a
callable method `m`, and a config that enumerates exactly the key `m`
carrying exactly the slot key `k`, the call succeeds on the class itself
and attaches the slot to the one shared method function: afterwards
`C.prototype.m` still resolves to that function, the function carries
`k` bound to the configured constructor value, and every instance whose
prototype is `C.prototype` (constructed before or after the call — the
final heap quantifies over both) observes `instance.m.k` equal to the
configured value through the shared method table. -/
theorem C4_class_method_slots (h : Heap) (c p f : Nat) (cfg errs v : JSValue) (m k : String)
    (oc op fo : JSObject) (dp dm : PropDesc)
    (hc : h.get? c = some oc) (hcall : oc.callable = true)
    (hsrc : strStartsWith oc.sourceText "class " = true)
    (hproto : getOwn oc "prototype" = some dp) (hpv : dp.value = .vref p)
    (hK : forInKeys h cfg = [m])
    (hpo : h.get? p = some op) (hom : getOwn op m = some dm) (hdm : dm.value = .vref f)
    (hfo : h.get? f = some fo) (hfc : fo.callable = true)
    (hcfgm : getPropV h cfg m = .ok errs)
    (hS : forInKeys h errs = [k])
    (hek : getPropV h errs k = .ok v)
    (hallow : setAllowed h f k = true)
    (hkm : k ≠ m) :
    ∃ h', withErrors h (.vref c) cfg = .ok (.vref c, h') ∧
      getProp h' p m = .vref f ∧
      getProp h' f k = v ∧
      (∀ i oi, h'.get? i = some oi → oi.proto = some p → getOwn oi m = none →
        getProp h' i m = .vref f) := by
  have hm : getProp h p m = .vref f := by
    rw [getProp_own h p m op dm hpo hom, hdm]
  have hfcall : isCallableRef h f = true := by
    simp only [isCallableRef, hfo, hfc]
  have hrun := withErrors_single h c p f cfg errs v m k oc dp hc hcall hsrc hproto hpv
    hK hm hfcall hcfgm hS hek hallow
  refine ⟨heapUpdate h f (fun o => setOwnProp o k v), hrun, ?_, ?_, ?_⟩
  case _ =>
    obtain ⟨op', hp', hkeys, _, _, _⟩ := getOwn_after_write h f k v p op hpo
    rw [getProp_own _ p m op' dm hp' (by rw [hkeys m (fun hh => hkm hh.symm)]; exact hom), hdm]
  case _ =>
    obtain ⟨d, hd, hdv⟩ := getOwn_setOwnProp_self fo k v
    rw [getProp_own _ f k (setOwnProp fo k v) d (get?_heapUpdate_self h f _ fo hfo) hd, hdv]
  case _ =>
    intro i oi hio hip hmi
    obtain ⟨op', hp', hkeys, _, _, _⟩ := getOwn_after_write h f k v p op hpo
    rw [getProp_step1 _ i p m oi op' dm hio hmi hip hp'
      (by rw [hkeys m (fun hh => hkm hh.symm)]; exact hom), hdm]

/-- C4 witness: on the example class heap the slot `E` lands on the shared
method function and is visible from the pre-existing instance at 6. -/
theorem C4_witness :
    ∃ h', withErrors clsHeap (.vref 0) (.vref 3) = .ok (.vref 0, h') ∧
      getProp h' 1 "m" = .vref 2 ∧
      getProp h' 2 "E" = .vref 5 ∧
      (∀ i oi, h'.get? i = some oi → oi.proto = some 1 → getOwn oi "m" = none →
        getProp h' i "m" = .vref 2) :=
  C4_class_method_slots clsHeap 0 1 2 (.vref 3) (.vref 4) (.vref 5) "m" "E"
    ({ callable := true, sourceText := "class C { m() { throw new E(); } }",
       props := [("prototype", { value := .vref 1, enumerable := false, writable := false })] } : JSObject)
    ({ props := [("m", { value := .vref 2, enumerable := false })] } : JSObject)
    ({ callable := true, sourceText := "m() { throw new E(); }" } : JSObject)
    ({ value := .vref 1, enumerable := false, writable := false } : PropDesc)
    ({ value := .vref 2, enumerable := false } : PropDesc)
    (by decide) (by decide) (by decide) (by decide) (by decide) (by decide) (by decide)
    (by decide) (by decide) (by decide) (by decide) (by decide) (by decide) (by decide)
    (by decide) (by decide)

/-- C9: the class-mode method lookup `C.prototype[methodName]` resolves
through the prototype chain: when the class's own prototype lacks `m` but
chains to a superclass prototype owning it, the config key `m` counts as
present, the superclass's shared method function is the one mutated, and
the attached slot is observable through every object that reaches the
superclass prototype — its direct instances and the instances of any other
subclass — not only through instances of the annotated class. -/
theorem C9_inherited_method (h : Heap) (c pc ps f p2 : Nat) (cfg errs v : JSValue)
    (m k : String) (oc opc ops fo op2 : JSObject) (dp dm : PropDesc)
    (hc : h.get? c = some oc) (hcall : oc.callable = true)
    (hsrc : strStartsWith oc.sourceText "class " = true)
    (hproto : getOwn oc "prototype" = some dp) (hpv : dp.value = .vref pc)
    (hpc : h.get? pc = some opc) (hpcm : getOwn opc m = none) (hpcp : opc.proto = some ps)
    (hps : h.get? ps = some ops) (hom : getOwn ops m = some dm) (hdm : dm.value = .vref f)
    (hfo : h.get? f = some fo) (hfc : fo.callable = true)
    (hp2 : h.get? p2 = some op2) (hp2m : getOwn op2 m = none) (hp2p : op2.proto = some ps)
    (hK : forInKeys h cfg = [m])
    (hcfgm : getPropV h cfg m = .ok errs)
    (hS : forInKeys h errs = [k])
    (hek : getPropV h errs k = .ok v)
    (hallow : setAllowed h f k = true)
    (hkm : k ≠ m) :
    ∃ h', withErrors h (.vref c) cfg = .ok (.vref c, h') ∧
      getProp h pc m = .vref f ∧
      getProp h' f k = v ∧
      (∀ i oi, h'.get? i = some oi → oi.proto = some ps → getOwn oi m = none →
        getProp h' i m = .vref f) ∧
      (∀ j oj, h'.get? j = some oj → oj.proto = some p2 → getOwn oj m = none →
        getProp h' j m = .vref f) := by
  have hmnek : m ≠ k := fun hh => hkm hh.symm
  have hm : getProp h pc m = .vref f := by
    rw [getProp_step1 h pc ps m opc ops dm hpc hpcm hpcp hps hom, hdm]
  have hfcall : isCallableRef h f = true := by
    simp only [isCallableRef, hfo, hfc]
  have hrun := withErrors_single h c pc f cfg errs v m k oc dp hc hcall hsrc hproto hpv
    hK hm hfcall hcfgm hS hek hallow
  obtain ⟨ops', hps', hkeyss, hprotos, _, _⟩ := getOwn_after_write h f k v ps ops hps
  have homs : getOwn ops' m = some dm := by rw [hkeyss m hmnek]; exact hom
  refine ⟨heapUpdate h f (fun o => setOwnProp o k v), hrun, hm, ?_, ?_, ?_⟩
  case _ =>
    obtain ⟨d, hd, hdv⟩ := getOwn_setOwnProp_self fo k v
    rw [getProp_own _ f k (setOwnProp fo k v) d (get?_heapUpdate_self h f _ fo hfo) hd, hdv]
  case _ =>
    intro i oi hio hip hmi
    rw [getProp_step1 _ i ps m oi ops' dm hio hmi hip hps' homs, hdm]
  case _ =>
    intro j oj hjo hjp hmj
    obtain ⟨op2', hp2', hkeys2, hproto2, _, _⟩ := getOwn_after_write h f k v p2 op2 hp2
    have hom2 : getOwn op2' m = none := by rw [hkeys2 m hmnek]; exact hp2m
    rw [getProp_step2 _ j p2 ps m oj op2' ops' dm hjo hmj hjp hp2' hom2
      (by rw [hproto2]; exact hp2p) hps' homs, hdm]

/-- C9 witness: on the inheritance example heap, annotating the subclass
mutates the superclass's shared method function, and both a superclass
instance (7) and an instance of another subclass (9) observe the slot. -/
theorem C9_witness :
    ∃ h', withErrors subHeap (.vref 0) (.vref 4) = .ok (.vref 0, h') ∧
      getProp subHeap 1 "m" = .vref 3 ∧
      getProp h' 3 "E" = .vref 6 ∧
      (∀ i oi, h'.get? i = some oi → oi.proto = some 2 → getOwn oi "m" = none →
        getProp h' i "m" = .vref 3) ∧
      (∀ j oj, h'.get? j = some oj → oj.proto = some 8 → getOwn oj "m" = none →
        getProp h' j "m" = .vref 3) :=
  C9_inherited_method subHeap 0 1 2 3 8 (.vref 4) (.vref 5) (.vref 6) "m" "E"
    ({ callable := true, sourceText := "class S extends Base {}",
       props := [("prototype", { value := .vref 1, enumerable := false, writable := false })] } : JSObject)
    ({ proto := some 2 } : JSObject)
    ({ props := [("m", { value := .vref 3, enumerable := false })] } : JSObject)
    ({ callable := true, sourceText := "m() {}" } : JSObject)
    ({ proto := some 2 } : JSObject)
    ({ value := .vref 1, enumerable := false, writable := false } : PropDesc)
    ({ value := .vref 3, enumerable := false } : PropDesc)
    (by decide) (by decide) (by decide) (by decide) (by decide) (by decide) (by decide)
    (by decide) (by decide) (by decide) (by decide) (by decide) (by decide) (by decide)
    (by decide) (by decide) (by decide) (by decide) (by decide) (by decide) (by decide)
    (by decide)

theorem find?_some_of_any {A : Type} (p : A → Bool) (l : List A) (h : l.any p = true) :
    ∃ x, l.find? p = some x := by
  induction l with
  | nil => simp at h
  | cons hd tl ih =>
    cases hp : p hd with
    | true => exact ⟨hd, List.find?_cons_of_pos _ hp⟩
    | false =>
      have h' : tl.any p = true := by simpa [List.any_cons, hp] using h
      obtain ⟨x, hx⟩ := ih h'
      exact ⟨x, by rw [List.find?_cons_of_neg _ (by simp [hp])]; exact hx⟩

theorem find?_map_set_eq (l : List (String × PropDesc)) (k : String) (v : JSValue)
    (x : String × PropDesc) (hf : l.find? (fun p => p.1 = k) = some x) :
    (l.map (fun p => if p.1 = k then (p.1, { p.2 with value := v }) else p)).find?
        (fun p => p.1 = k) = some (x.1, { x.2 with value := v }) := by
  induction l with
  | nil => cases hf
  | cons hd tl ih =>
    by_cases hk : hd.1 = k
    · rw [List.find?_cons_of_pos _ (by simpa using hk)] at hf
      injection hf with hx
      subst hx
      rw [List.map_cons, if_pos hk]
      rw [List.find?_cons_of_pos _ (by simpa using hk)]
    · rw [List.find?_cons_of_neg _ (by simpa using hk)] at hf
      rw [List.map_cons, if_neg hk]
      rw [List.find?_cons_of_neg _ (by simpa using hk)]
      exact ih hf

/-- The exact descriptor `setOwnProp` leaves under its own key: the old
attributes with the new value when the property existed, a fresh
enumerable writable property otherwise. -/
theorem getOwn_setOwnProp_self_eq (o : JSObject) (k : String) (v : JSValue) :
    getOwn (setOwnProp o k v) k =
      some (match getOwn o k with
            | some d0 => { d0 with value := v }
            | none => { value := v }) := by
  cases hf : o.props.find? (fun p => p.1 = k) with
  | some x =>
    have hgo : getOwn o k = some x.2 := by unfold getOwn; rw [hf]; rfl
    rw [hgo]
    have hmemx := List.mem_of_find?_eq_some hf
    have hpx : (fun p => decide (p.1 = k)) x = true :=
      @List.find?_some (String × PropDesc) (fun p => decide (p.1 = k)) x o.props hf
    have hany : o.props.any (fun p => p.1 = k) = true :=
      List.any_eq_true.mpr ⟨x, hmemx, hpx⟩
    unfold setOwnProp getOwn
    rw [if_pos hany]
    show ((o.props.map _).find? _).map _ = _
    rw [find?_map_set_eq o.props k v x hf]
    rfl
  | none =>
    have hgo : getOwn o k = none := by unfold getOwn; rw [hf]; rfl
    rw [hgo]
    have hany : o.props.any (fun p => p.1 = k) ≠ true := by
      intro hcon
      obtain ⟨x, hx⟩ := find?_some_of_any _ _ hcon
      rw [hf] at hx
      cases hx
    unfold setOwnProp getOwn
    rw [if_neg hany]
    show ((o.props ++ [(k, ({ value := v } : PropDesc))]).find? (fun p => p.1 = k)).map
        (fun p => (p.2 : PropDesc)) = _
    rw [find?_append_none _ _ _ hf]
    rw [List.find?_cons_of_pos _ (by simp)]
    rfl

/-- A successful strict-mode write of `(f, k)` stays allowed after itself. -/
theorem setAllowed_after_self_write (h : Heap) (f : Nat) (k : String) (v : JSValue)
    (fo : JSObject) (hfo : h.get? f = some fo) (hal : setAllowed h f k = true) :
    setAllowed (heapUpdate h f (fun o => setOwnProp o k v)) f k = true := by
  unfold setAllowed at hal ⊢
  rw [length_heapUpdate]
  have h1f : (heapUpdate h f (fun o => setOwnProp o k v)).get? f
      = some (setOwnProp fo k v) := get?_heapUpdate_self h f _ fo hfo
  rw [setAllowedFuel_succ_some _ h.length f k _ h1f]
  rw [getOwn_setOwnProp_self_eq fo k v]
  rw [setAllowedFuel_succ_some h h.length f k fo hfo] at hal
  cases hgo : getOwn fo k with
  | some d0 =>
    simp only [hgo] at hal ⊢
    exact hal
  | none => simp only [hgo]

/-- `isClass` depends only on the callability and source text of the
referenced object. -/
theorem isClass_congr (h h' : Heap) (a : Nat) (o o' : JSObject)
    (hh : h.get? a = some o) (hh' : h'.get? a = some o')
    (hcb : o'.callable = o.callable) (hs : o'.sourceText = o.sourceText) :
    isClass h' (.vref a) = isClass h (.vref a) := by
  simp only [isClass, hh, hh', hcb, hs]

theorem mem_ownEnumKeys_of_getOwn (oe : JSObject) (k : String) (d : PropDesc)
    (hd : getOwn oe k = some d) (hen : d.enumerable = true) : k ∈ ownEnumKeys oe := by
  unfold getOwn at hd
  cases hf : oe.props.find? (fun p => p.1 = k) with
  | none => rw [hf] at hd; cases hd
  | some x =>
    rw [hf] at hd
    injection hd with hd2
    have hmem := List.mem_of_find?_eq_some hf
    have hpx : x.1 = k := by simpa using List.find?_some hf
    unfold ownEnumKeys
    exact List.mem_map.mpr ⟨x, List.mem_filter.mpr ⟨hmem,
      by rw [show x.2 = d from hd2]; exact hen⟩, hpx⟩

theorem nodup_ownEnumKeys (oe : JSObject)
    (hnd : (oe.props.map (fun p => p.1)).Nodup) : (ownEnumKeys oe).Nodup := by
  unfold ownEnumKeys
  have hsub : List.Sublist ((oe.props.filter (fun p => p.2.enumerable)).map (fun p => p.1))
      (oe.props.map (fun p => p.1)) :=
    (List.filter_sublist oe.props).map (fun p => p.1)
  exact List.Nodup.sublist hsub hnd

/-- The copy loop of `Object.assign` against a source object distinct from
the target: the source survives untouched, other addresses are untouched,
the target keeps its identity-relevant fields, every copied own enumerable
key ends up on the target with the source's value, and keys outside the
list keep their previous own value. -/
theorem assignFold_ok_spec (a e : Nat) (hne : e ≠ a) (ks : List String) :
    ∀ (h : Heap) (oe oa : JSObject) (h' : Heap),
      h.get? e = some oe → h.get? a = some oa → ks.Nodup →
      assignFold a (.vref e) h ks = .ok h' →
      h'.get? e = some oe ∧
      (∀ b, b ≠ a → h'.get? b = h.get? b) ∧
      (∃ oa', h'.get? a = some oa' ∧ oa'.callable = oa.callable ∧
        oa'.sourceText = oa.sourceText ∧ oa'.proto = oa.proto) ∧
      (∀ k d, k ∈ ks → getOwn oe k = some d → ownVal h' a k = some d.value) ∧
      (∀ k, k ∉ ks → ownVal h' a k = ownVal h a k) := by
  induction ks with
  | nil =>
    intro h oe oa h' he ha hnd hok
    simp only [assignFold] at hok
    cases hok
    exact ⟨he, fun b hb => rfl, ⟨oa, ha, rfl, rfl, rfl⟩,
      fun k d hk hd => absurd hk (List.not_mem_nil k), fun k hk => rfl⟩
  | cons k0 rest ih =>
    intro h oe oa h' he ha hnd hok
    simp only [assignFold] at hok
    cases hsr : setRef h a k0 (srcGet h (.vref e) k0) with
    | error ex =>
      simp only [hsr] at hok
      exact Except.noConfusion hok
    | ok h1 =>
      simp only [hsr] at hok
      unfold setRef at hsr
      by_cases hal : setAllowed h a k0 = true
      · rw [if_pos hal] at hsr
        injection hsr with hh1
        subst hh1
        have he1 : (heapUpdate h a (fun o => setOwnProp o k0 (srcGet h (.vref e) k0))).get? e
            = some oe := by
          rw [get?_heapUpdate_ne h a e _ hne]
          exact he
        have ha1 : (heapUpdate h a (fun o => setOwnProp o k0 (srcGet h (.vref e) k0))).get? a
            = some (setOwnProp oa k0 (srcGet h (.vref e) k0)) :=
          get?_heapUpdate_self h a _ oa ha
        obtain ⟨hk0rest, hnd1⟩ := List.nodup_cons.mp hnd
        obtain ⟨ihe, ihframe, ihoa, ihvals, ihpres⟩ :=
          ih _ oe (setOwnProp oa k0 (srcGet h (.vref e) k0)) h' he1 ha1 hnd1 hok
        refine ⟨ihe, ?_, ?_, ?_, ?_⟩
        · intro b hb
          rw [ihframe b hb, get?_heapUpdate_ne h a b _ hb]
        · obtain ⟨oa', h1', hc', hs', hp'⟩ := ihoa
          exact ⟨oa', h1', by rw [hc', setOwnProp_callable],
            by rw [hs', setOwnProp_sourceText], by rw [hp', setOwnProp_proto]⟩
        · intro k d hk hd
          rcases List.mem_cons.mp hk with rfl | hkr
          · rw [ihpres k hk0rest]
            have hval : srcGet h (.vref e) k = d.value := by
              show getProp h e k = d.value
              exact getProp_own h e k oe d he hd
            obtain ⟨d1, hd1, hdv1⟩ := getOwn_setOwnProp_self oa k (srcGet h (.vref e) k)
            show ownVal _ a k = some d.value
            simp only [ownVal, ha1, hd1]
            show some d1.value = some d.value
            rw [hdv1, hval]
          · exact ihvals k d hkr hd
        · intro k hk
          have hkk0 : k ≠ k0 := fun hh => hk (hh ▸ List.mem_cons_self k0 rest)
          have hkr : k ∉ rest := fun hh => hk (List.mem_cons_of_mem k0 hh)
          rw [ihpres k hkr]
          simp only [ownVal, ha1, ha]
          rw [getOwn_setOwnProp_ne oa k0 k _ hkk0]
      · rw [if_neg hal] at hsr
        exact Except.noConfusion hsr

/-- The full callable-mode run against an object config distinct from the
target function: identity preserved, config object untouched, all other
addresses untouched, target keeps callability/source/prototype, and every
own enumerable config key is afterwards readable on the target with the
config's value. -/
theorem callable_run_spec (h : Heap) (a e : Nat) (oa oe : JSObject) (res : JSValue × Heap)
    (ha : h.get? a = some oa) (hnc : isClass h (.vref a) = false)
    (he : h.get? e = some oe) (hne : e ≠ a)
    (hnd : (oe.props.map (fun p => p.1)).Nodup)
    (hok : withErrors h (.vref a) (.vref e) = .ok res) :
    res.1 = .vref a ∧
    res.2.get? e = some oe ∧
    (∀ b, b ≠ a → res.2.get? b = h.get? b) ∧
    (∃ oa', res.2.get? a = some oa' ∧ oa'.callable = oa.callable ∧
      oa'.sourceText = oa.sourceText ∧ oa'.proto = oa.proto) ∧
    (∀ k d, getOwn oe k = some d → d.enumerable = true →
      getProp res.2 a k = d.value ∧ getProp res.2 e k = d.value) := by
  simp only [withErrors] at hok
  rw [if_neg (show ¬ isClass h (.vref a) = true by rw [hnc]; exact Bool.noConfusion)] at hok
  simp only [objectAssign] at hok
  have hks : srcEnumKeys h (.vref e) = ownEnumKeys oe := by
    show (match h.get? e with
          | some o => ownEnumKeys o
          | none => []) = ownEnumKeys oe
    rw [he]
  rw [hks] at hok
  cases haf : assignFold a (.vref e) h (ownEnumKeys oe) with
  | error ex =>
    simp only [haf] at hok
    exact Except.noConfusion hok
  | ok h1 =>
    simp only [haf] at hok
    cases hok
    obtain ⟨he', hframe, hoa', hvals, hpres⟩ :=
      assignFold_ok_spec a e hne (ownEnumKeys oe) h oe oa h1 he ha
        (nodup_ownEnumKeys oe hnd) haf
    refine ⟨rfl, he', hframe, hoa', ?_⟩
    intro k d hd hen
    have hov := hvals k d (mem_ownEnumKeys_of_getOwn oe k d hd hen) hd
    constructor
    · cases hga : h1.get? a with
      | none =>
        simp only [ownVal, hga] at hov
        exact Option.noConfusion hov
      | some oa2 =>
        simp only [ownVal, hga] at hov
        cases hgo : getOwn oa2 k with
        | none => simp [hgo] at hov
        | some d2 =>
          simp only [hgo] at hov
          have hv : d2.value = d.value := by
            have hov' : some d2.value = some d.value := hov
            injection hov'
          rw [getProp_own h1 a k oa2 d2 hga hgo]
          exact hv
    · exact getProp_own h1 e k oe d he' hd

/-- C3: after a completed callable-mode call `withErrors(fn, cfg)` with a
config object distinct from the function, every enumerable own property
`name` of the config is afterwards readable on the function with exactly
the config's value for that name — any pre-existing property of that name
has been overwritten — so `fn[name] === cfg[name]` holds for every `name`
in the config. -/
theorem C3_callable_slots (h : Heap) (a e : Nat) (oa oe : JSObject) (res : JSValue × Heap)
    (ha : h.get? a = some oa) (hnc : isClass h (.vref a) = false)
    (he : h.get? e = some oe) (hne : e ≠ a)
    (hnd : (oe.props.map (fun p => p.1)).Nodup)
    (hok : withErrors h (.vref a) (.vref e) = .ok res) :
    ∀ k d, getOwn oe k = some d → d.enumerable = true →
      getProp res.2 a k = d.value ∧ getProp res.2 e k = d.value :=
  (callable_run_spec h a e oa oe res ha hnc he hne hnd hok).2.2.2.2

/-- C3 witness: on the callable example heap the slot `E` is afterwards
readable on the function with the config's constructor. -/
theorem C3_witness :
    getProp fnHeapA 0 "E" = .vref 2 ∧ getProp fnHeapA 1 "E" = .vref 2 :=
  C3_callable_slots fnHeap 0 1
    ({ callable := true, sourceText := "() => { throw new test.E(); }" } : JSObject)
    ({ props := [("E", { value := .vref 2 })] } : JSObject)
    (.vref 0, fnHeapA)
    (by decide) (by decide) (by decide) (by decide) (by decide) (by decide)
    "E" ({ value := .vref 2 } : PropDesc) (by decide) (by decide)

/-- C7: re-annotation is last-write-wins in both modes.  Callable mode:
after `annotate(fn, cfg1)` then `annotate(fn, cfg2)` with both configs
binding the slot `K`, the function first carries `cfg1`'s value and then
`cfg2`'s value for `K` — the second write silently overwrites the first,
with no conflict detection.  Class mode: the same two-call sequence on a
class config `{m: {K: _}}` leaves the shared method function carrying the
second constructor under `K`. -/
theorem C7_last_write_wins :
    (∀ (h : Heap) (a e1 e2 : Nat) (K : String) (oa oe1 oe2 : JSObject) (d1 d2 : PropDesc)
        (res1 res2 : JSValue × Heap),
      h.get? a = some oa → isClass h (.vref a) = false →
      h.get? e1 = some oe1 → e1 ≠ a → (oe1.props.map (fun p => p.1)).Nodup →
      h.get? e2 = some oe2 → e2 ≠ a → (oe2.props.map (fun p => p.1)).Nodup →
      getOwn oe1 K = some d1 → d1.enumerable = true →
      getOwn oe2 K = some d2 → d2.enumerable = true →
      withErrors h (.vref a) (.vref e1) = .ok res1 →
      withErrors res1.2 (.vref a) (.vref e2) = .ok res2 →
      getProp res1.2 a K = d1.value ∧ getProp res2.2 a K = d2.value) ∧
    (∀ (h : Heap) (c p f : Nat) (cfg1 cfg2 errs1 errs2 v1 v2 : JSValue) (m K : String)
        (oc fo : JSObject) (dp : PropDesc),
      h.get? c = some oc → oc.callable = true →
      strStartsWith oc.sourceText "class " = true →
      getOwn oc "prototype" = some dp → dp.value = .vref p →
      h.get? f = some fo → fo.callable = true →
      forInKeys h cfg1 = [m] → getProp h p m = .vref f →
      getPropV h cfg1 m = .ok errs1 → forInKeys h errs1 = [K] →
      getPropV h errs1 K = .ok v1 → setAllowed h f K = true →
      K ≠ m → K ≠ "prototype" →
      forInKeys (heapUpdate h f (fun o => setOwnProp o K v1)) cfg2 = [m] →
      getPropV (heapUpdate h f (fun o => setOwnProp o K v1)) cfg2 m = .ok errs2 →
      forInKeys (heapUpdate h f (fun o => setOwnProp o K v1)) errs2 = [K] →
      getPropV (heapUpdate h f (fun o => setOwnProp o K v1)) errs2 K = .ok v2 →
      withErrors h (.vref c) cfg1 = .ok (.vref c, heapUpdate h f (fun o => setOwnProp o K v1)) ∧
      getProp (heapUpdate h f (fun o => setOwnProp o K v1)) f K = v1 ∧
      ∃ h2, withErrors (heapUpdate h f (fun o => setOwnProp o K v1)) (.vref c) cfg2
          = .ok (.vref c, h2) ∧ getProp h2 f K = v2) := by
  constructor
  · intro h a e1 e2 K oa oe1 oe2 d1 d2 res1 res2 ha hnc he1 hne1 hnd1 he2 hne2 hnd2
      hK1 hen1 hK2 hen2 hok1 hok2
    obtain ⟨hid1, he1', hframe1, ⟨oa', ha', hc', hs', hp'⟩, hvals1⟩ :=
      callable_run_spec h a e1 oa oe1 res1 ha hnc he1 hne1 hnd1 hok1
    have hnc2 : isClass res1.2 (.vref a) = false := by
      rw [isClass_congr h res1.2 a oa oa' ha ha' hc' hs']
      exact hnc
    have he2' : res1.2.get? e2 = some oe2 := by
      rw [hframe1 e2 hne2]
      exact he2
    obtain ⟨hid2, he2'', hframe2, hoa2, hvals2⟩ :=
      callable_run_spec res1.2 a e2 oa' oe2 res2 ha' hnc2 he2' hne2 hnd2 hok2
    exact ⟨(hvals1 K d1 hK1 hen1).1, (hvals2 K d2 hK2 hen2).1⟩
  · intro h c p f cfg1 cfg2 errs1 errs2 v1 v2 m K oc fo dp
      hc hcall hsrc hproto hpv hfo hfc hK1 hm1 hcfg1 hS1 hek1 hal1 hkm hkp
      hK2 hcfg2 hS2 hek2
    have hfcall : isCallableRef h f = true := by
      simp only [isCallableRef, hfo, hfc]
    have hrun1 := withErrors_single h c p f cfg1 errs1 v1 m K oc dp hc hcall hsrc hproto hpv
      hK1 hm1 hfcall hcfg1 hS1 hek1 hal1
    obtain ⟨oc', hc1, hkeysc, hpc', hcc', hsc'⟩ := getOwn_after_write h f K v1 c oc hc
    have hcall1 : oc'.callable = true := by rw [hcc']; exact hcall
    have hsrc1 : strStartsWith oc'.sourceText "class " = true := by rw [hsc']; exact hsrc
    have hproto1 : getOwn oc' "prototype" = some dp := by
      rw [hkeysc "prototype" (Ne.symm hkp)]
      exact hproto
    have hm2 : getProp (heapUpdate h f (fun o => setOwnProp o K v1)) p m = .vref f := by
      rw [getProp_after_write_ne h f K v1 p m (Ne.symm hkm)]
      exact hm1
    have hf1get : (heapUpdate h f (fun o => setOwnProp o K v1)).get? f
        = some (setOwnProp fo K v1) := get?_heapUpdate_self h f _ fo hfo
    have hf1 : isCallableRef (heapUpdate h f (fun o => setOwnProp o K v1)) f = true := by
      simp only [isCallableRef, hf1get, setOwnProp_callable]
      exact hfc
    have hal2 := setAllowed_after_self_write h f K v1 fo hfo hal1
    have hrun2 := withErrors_single (heapUpdate h f (fun o => setOwnProp o K v1)) c p f
      cfg2 errs2 v2 m K oc' dp hc1 hcall1 hsrc1 hproto1 hpv hK2 hm2 hf1 hcfg2 hS2 hek2 hal2
    refine ⟨hrun1, ?_, ⟨_, hrun2, ?_⟩⟩
    · obtain ⟨d, hd, hdv⟩ := getOwn_setOwnProp_self fo K v1
      rw [getProp_own _ f K (setOwnProp fo K v1) d hf1get hd, hdv]
    · obtain ⟨d, hd, hdv⟩ := getOwn_setOwnProp_self (setOwnProp fo K v1) K v2
      rw [getProp_own _ f K (setOwnProp (setOwnProp fo K v1) K v2) d
        (get?_heapUpdate_self _ f _ (setOwnProp fo K v1) hf1get) hd, hdv]

/-- C7 witness: overwriting the slot `E` on the example function with a
second config makes the second constructor win, and the same two-call
sequence on the example class leaves the method function carrying the
second constructor. -/
theorem C7_witness :
    (getProp fnHeapA 0 "E" = .vref 2 ∧ getProp fnHeapB 0 "E" = .vref 4) ∧
    ∃ h2, withErrors (heapUpdate clsHeap 2 (fun o => setOwnProp o "E" (.vref 5))) (.vref 0)
        (.vref 7) = .ok (.vref 0, h2) ∧ getProp h2 2 "E" = .vref 9 := by
  constructor
  · exact C7_last_write_wins.1 fnHeap 0 1 3 "E"
      ({ callable := true, sourceText := "() => { throw new test.E(); }" } : JSObject)
      ({ props := [("E", { value := .vref 2 })] } : JSObject)
      ({ props := [("E", { value := .vref 4 })] } : JSObject)
      ({ value := .vref 2 } : PropDesc) ({ value := .vref 4 } : PropDesc)
      (.vref 0, fnHeapA) (.vref 0, fnHeapB)
      (by decide) (by decide) (by decide) (by decide) (by decide) (by decide) (by decide)
      (by decide) (by decide) (by decide) (by decide) (by decide) (by decide) (by decide)
  · have hcls := (C7_last_write_wins.2 clsHeap 0 1 2 (.vref 3) (.vref 7) (.vref 4) (.vref 8)
      (.vref 5) (.vref 9) "m" "E"
      ({ callable := true, sourceText := "class C { m() { throw new E(); } }",
         props := [("prototype", { value := .vref 1, enumerable := false, writable := false })] } : JSObject)
      ({ callable := true, sourceText := "m() { throw new E(); }" } : JSObject)
      ({ value := .vref 1, enumerable := false, writable := false } : PropDesc)
      (by decide) (by decide) (by decide) (by decide) (by decide) (by decide) (by decide)
      (by decide) (by decide) (by decide) (by decide) (by decide) (by decide) (by decide)
      (by decide) (by decide) (by decide) (by decide) (by decide))
    exact hcls.2.2

theorem get?_some_of_lt {A : Type} (l : List A) (n : Nat) (h : n < l.length) :
    ∃ x, l.get? n = some x := by
  induction l generalizing n with
  | nil => simp at h
  | cons hd tl ih =>
    cases n with
    | zero => exact ⟨hd, rfl⟩
    | succ m =>
      exact ih m (by simp only [List.length_cons] at h; omega)

theorem get?_none_iff_le {A : Type} (l : List A) (n : Nat) :
    l.get? n = none ↔ l.length ≤ n := by
  constructor
  · intro hn
    by_contra hlt
    push_neg at hlt
    obtain ⟨x, hx⟩ := get?_some_of_lt l n hlt
    rw [hx] at hn
    cases hn
  · intro hle
    cases hx : l.get? n with
    | none => rfl
    | some x =>
      have := get?_some_lt l n x hx
      omega

theorem chainAddrsFuel_succ (h : Heap) (fuel a : Nat) :
    chainAddrsFuel h (fuel + 1) a =
      a :: (match h.get? a with
            | none => []
            | some o =>
              match o.proto with
              | none => []
              | some q => chainAddrsFuel h fuel q) := rfl

theorem forInFuel_succ_some (h : Heap) (fuel a : Nat) (seen : List String) (o : JSObject)
    (ha : h.get? a = some o) :
    forInFuel h (fuel + 1) a seen =
      (o.props.filter (fun p => p.2.enumerable && !(seen.contains p.1))).map (fun p => p.1)
        ++ (match o.proto with
            | none => []
            | some q => forInFuel h fuel q (seen ++ o.props.map (fun p => p.1))) := by
  simp only [forInFuel, ha]

theorem forInFuel_succ_none (h : Heap) (fuel a : Nat) (seen : List String)
    (ha : h.get? a = none) : forInFuel h (fuel + 1) a seen = [] := by
  simp only [forInFuel, ha]

/-- Lookups whose whole chain avoids the write targets read the same value
before and after a class-mode run. -/
theorem getPropFuel_evolve_frame (h h' : Heap) (F : List Nat) (W : WriteEvolve h F h') :
    ∀ fuel a k, (∀ x ∈ chainAddrsFuel h fuel a, x ∉ F) →
      getPropFuel h' fuel a k = getPropFuel h fuel a k := by
  obtain ⟨Wlen, Wout, Wobj⟩ := W
  intro fuel
  induction fuel with
  | zero => intro a k hch; rfl
  | succ n ih =>
    intro a k hch
    have hanotF : a ∉ F := hch a (by rw [chainAddrsFuel_succ]; exact List.mem_cons_self a _)
    have hgeq : h'.get? a = h.get? a := Wout a hanotF
    cases hh : h.get? a with
    | none =>
      rw [getPropFuel_succ_none h' n a k (by rw [hgeq]; exact hh)]
      rw [getPropFuel_succ_none h n a k hh]
    | some o =>
      rw [getPropFuel_succ_some h' n a k o (by rw [hgeq]; exact hh)]
      rw [getPropFuel_succ_some h n a k o hh]
      cases getOwn o k with
      | some d => rfl
      | none =>
        cases hpr : o.proto with
        | none => rfl
        | some q =>
          exact ih q k (fun x hx => hch x
            (by simp only [chainAddrsFuel_succ, hh, hpr]; exact List.mem_cons_of_mem a hx))

/-- `for-in` enumerations whose whole chain avoids the write targets are
unchanged by a class-mode run. -/
theorem forInFuel_evolve_frame (h h' : Heap) (F : List Nat) (W : WriteEvolve h F h') :
    ∀ fuel a seen, (∀ x ∈ chainAddrsFuel h fuel a, x ∉ F) →
      forInFuel h' fuel a seen = forInFuel h fuel a seen := by
  obtain ⟨Wlen, Wout, Wobj⟩ := W
  intro fuel
  induction fuel with
  | zero => intro a seen hch; rfl
  | succ n ih =>
    intro a seen hch
    have hanotF : a ∉ F := hch a (by rw [chainAddrsFuel_succ]; exact List.mem_cons_self a _)
    have hgeq : h'.get? a = h.get? a := Wout a hanotF
    cases hh : h.get? a with
    | none =>
      rw [forInFuel_succ_none h' n a seen (by rw [hgeq]; exact hh)]
      rw [forInFuel_succ_none h n a seen hh]
    | some o =>
      rw [forInFuel_succ_some h' n a seen o (by rw [hgeq]; exact hh)]
      rw [forInFuel_succ_some h n a seen o hh]
      cases hpr : o.proto with
      | none => rfl
      | some q =>
        have hq := ih q (seen ++ o.props.map (fun p => p.1)) (fun x hx => hch x
          (by simp only [chainAddrsFuel_succ, hh, hpr]; exact List.mem_cons_of_mem a hx))
        simp only [hq]

/-- A write allowed before the run stays allowed after any of its heaps:
writes only create or re-target writable properties. -/
theorem setAllowedFuel_evolve (h h' : Heap) (F : List Nat) (W : WriteEvolve h F h') :
    ∀ fuel a k, setAllowedFuel h fuel a k = true → setAllowedFuel h' fuel a k = true := by
  obtain ⟨Wlen, Wout, Wobj⟩ := W
  intro fuel
  induction fuel with
  | zero => intro a k h0; rfl
  | succ n ih =>
    intro a k hal
    cases hh : h.get? a with
    | none =>
      have hh' : h'.get? a = none := by
        rw [get?_none_iff_le] at hh ⊢
        rw [Wlen]
        exact hh
      rw [setAllowedFuel_succ_none h' n a k hh']
    | some o =>
      obtain ⟨o', ho', hpr, hcb, hst, hde⟩ := Wobj a o hh
      rw [setAllowedFuel_succ_some h' n a k o' ho']
      rw [setAllowedFuel_succ_some h n a k o hh] at hal
      rcases hde k with hsame | ⟨d, hd, hw⟩
      · rw [hsame, hpr]
        cases hgo : getOwn o k with
        | some d0 =>
          simp only [hgo] at hal ⊢
          exact hal
        | none =>
          simp only [hgo] at hal ⊢
          cases hq : o.proto with
          | none => rfl
          | some q =>
            simp only [hq] at hal ⊢
            exact ih q k hal
      · rw [hd]
        exact hw

theorem isCallableRef_evolve (h h' : Heap) (F : List Nat) (W : WriteEvolve h F h')
    (f : Nat) : isCallableRef h' f = isCallableRef h f := by
  obtain ⟨Wlen, Wout, Wobj⟩ := W
  cases hh : h.get? f with
  | none =>
    have hh' : h'.get? f = none := by
      rw [get?_none_iff_le] at hh ⊢
      rw [Wlen]
      exact hh
    simp only [isCallableRef, hh, hh']
  | some o =>
    obtain ⟨o', ho', _, hcb, _, _⟩ := Wobj f o hh
    simp only [isCallableRef, hh, ho', hcb]

theorem isFunctionValue_evolve (h h' : Heap) (F : List Nat) (W : WriteEvolve h F h')
    (v : JSValue) : isFunctionValue h' v = isFunctionValue h v := by
  cases v with
  | vref a => exact isCallableRef_evolve h h' F W a
  | vundefined => rfl
  | vnull => rfl
  | vbool b => rfl
  | vnum n => rfl
  | vstr s => rfl

theorem writeEvolve_refl (h : Heap) (F : List Nat) : WriteEvolve h F h :=
  ⟨rfl, fun b hb => rfl, fun b o hb => ⟨o, hb, rfl, rfl, rfl, fun k => Or.inl rfl⟩⟩

/-- One more allowed slot write on a write target preserves the run
invariant. -/
theorem writeEvolve_write (h : Heap) (F : List Nat) (h' : Heap) (f : Nat) (k : String)
    (v : JSValue) (W : WriteEvolve h F h') (hfF : f ∈ F) (hal : setAllowed h f k = true) :
    WriteEvolve h F (heapUpdate h' f (fun o => setOwnProp o k v)) := by
  obtain ⟨Wlen, Wout, Wobj⟩ := W
  refine ⟨by rw [length_heapUpdate, Wlen], ?_, ?_⟩
  · intro b hb
    have hbf : b ≠ f := fun hh => hb (hh ▸ hfF)
    rw [get?_heapUpdate_ne h' f b _ hbf]
    exact Wout b hb
  · intro b o hb
    obtain ⟨o', ho', hpr, hcb, hst, hde⟩ := Wobj b o hb
    by_cases hbf : b = f
    · subst hbf
      refine ⟨setOwnProp o' k v, get?_heapUpdate_self h' b _ o' ho',
        by rw [setOwnProp_proto]; exact hpr,
        by rw [setOwnProp_callable]; exact hcb,
        by rw [setOwnProp_sourceText]; exact hst, ?_⟩
      intro k'
      by_cases hkk : k' = k
      · subst hkk
        right
        rw [getOwn_setOwnProp_self_eq o' k' v]
        refine ⟨_, rfl, ?_⟩
        cases hgo' : getOwn o' k' with
        | none => simp only [hgo']
        | some d0 =>
          simp only [hgo']
          rcases hde k' with hsame | ⟨d, hd, hw⟩
          · rw [hsame] at hgo'
            unfold setAllowed at hal
            rw [setAllowedFuel_succ_some h h.length b k' o hb] at hal
            simp only [hgo'] at hal
            exact hal
          · rw [hd] at hgo'
            injection hgo' with hdd
            rw [hdd] at hw
            exact hw
      · rcases hde k' with hsame | ⟨d, hd, hw⟩
        · left
          rw [getOwn_setOwnProp_ne o' k k' v hkk, hsame]
        · right
          exact ⟨d, by rw [getOwn_setOwnProp_ne o' k k' v hkk]; exact hd, hw⟩
    · exact ⟨o', by rw [get?_heapUpdate_ne h' f b _ hbf]; exact ho', hpr, hcb, hst, hde⟩

theorem mem_writeTargets_intro (h : Heap) (p : Nat) (ks : List String) (m : String) (f : Nat)
    (hm : m ∈ ks) (hval : getProp h p m = .vref f) (hcal : isCallableRef h f = true) :
    f ∈ writeTargets h p ks := by
  unfold writeTargets
  refine List.mem_filterMap.mpr ⟨m, hm, ?_⟩
  rw [hval]
  simp [hcal]

/-- Reading the second-level config entry never throws once the outer
`for-in` produced a key, and yields the initial-heap entry under the
separation hypotheses. -/
theorem cfgEntry_read_evolve (h h1 : Heap) (F : List Nat) (W : WriteEvolve h F h1)
    (cfg : JSValue) (m : String) (hmK : m ∈ forInKeys h cfg)
    (hcfgch : ∀ e, cfg = .vref e → ∀ x ∈ chainAddrs h e, x ∉ F) :
    getPropV h1 cfg m = .ok (cfgEntry h cfg m) := by
  cases cfg with
  | vnull => simp [forInKeys] at hmK
  | vundefined => simp [forInKeys] at hmK
  | vbool b => simp [forInKeys] at hmK
  | vnum n => simp [forInKeys] at hmK
  | vstr s => rfl
  | vref e =>
    have heq : getProp h1 e m = getProp h e m := by
      unfold getProp
      rw [W.1]
      exact getPropFuel_evolve_frame h h1 F W (h.length + 1) e m (hcfgch e rfl)
    rw [getPropV_ref, heq]
    rfl

/-- The inner `for-in` snapshot equals the initial-heap snapshot under the
separation hypotheses. -/
theorem forInKeys_entry_evolve (h h1 : Heap) (F : List Nat) (W : WriteEvolve h F h1)
    (v : JSValue) (hch : ∀ g, v = .vref g → ∀ x ∈ chainAddrs h g, x ∉ F) :
    forInKeys h1 v = forInKeys h v := by
  cases v with
  | vref g =>
    show forInFuel h1 (h1.length + 1) g [] = forInFuel h (h.length + 1) g []
    rw [W.1]
    exact forInFuel_evolve_frame h h1 F W (h.length + 1) g [] (hch g rfl)
  | vstr s => rfl
  | vnull => rfl
  | vundefined => rfl
  | vbool b => rfl
  | vnum n => rfl

/-- The inner slot loop completes and preserves the run invariant whenever
every slot write of the list was allowed in the initial heap and the
separation hypotheses hold. -/
theorem slotLoop_evolve (h : Heap) (c p : Nat) (oc : JSObject) (dp : PropDesc)
    (F : List Nat)
    (hc : h.get? c = some oc)
    (hproto : getOwn oc "prototype" = some dp) (hpv : dp.value = .vref p)
    (hcF : c ∉ F)
    (hpch : ∀ x ∈ chainAddrs h p, x ∉ F)
    (m : String) (f : Nat)
    (hm : getProp h p m = .vref f) (hfF : f ∈ F)
    (errs : JSValue) (S : List String)
    (hread : (errs ≠ .vnull ∧ errs ≠ .vundefined) ∨ S = [])
    (halS : ∀ k ∈ S, setAllowed h f k = true) :
    ∀ S' h1, (∀ k ∈ S', k ∈ S) → WriteEvolve h F h1 →
      ∃ h2, slotLoop c m errs h1 S' = .ok h2 ∧ WriteEvolve h F h2 := by
  intro S'
  induction S' with
  | nil => exact fun h1 hsub W => ⟨h1, rfl, W⟩
  | cons k rest ih =>
    intro h1 hsub W
    have hkS : k ∈ S := hsub k (List.mem_cons_self k rest)
    have hSne : S ≠ [] := fun hS => by
      rw [hS] at hkS
      exact List.not_mem_nil k hkS
    rcases hread with ⟨hen, heu⟩ | hS
    case inr => exact absurd hS hSne
    have hc1 : h1.get? c = some oc := by
      rw [W.2.1 c hcF]
      exact hc
    have hcp1 : getProp h1 c "prototype" = .vref p := by
      rw [getProp_own h1 c "prototype" oc dp hc1 hproto, hpv]
    have hpm1 : getProp h1 p m = .vref f := by
      unfold getProp
      rw [W.1]
      rw [getPropFuel_evolve_frame h h1 F W (h.length + 1) p m hpch]
      exact hm
    have hgv : getPropV h1 (.vref p) m = .ok (.vref f) := by
      rw [getPropV_ref, hpm1]
    have hrd : ∃ w, getPropV h1 errs k = .ok w := by
      cases errs with
      | vnull => exact absurd rfl hen
      | vundefined => exact absurd rfl heu
      | vref g => exact ⟨_, rfl⟩
      | vstr s => exact ⟨_, rfl⟩
      | vbool b => exact ⟨_, rfl⟩
      | vnum n => exact ⟨_, rfl⟩
    obtain ⟨w, hw⟩ := hrd
    have halk : setAllowed h1 f k = true := by
      unfold setAllowed
      rw [W.1]
      exact setAllowedFuel_evolve h h1 F W (h.length + 1) f k (halS k hkS)
    simp only [slotLoop, hcp1, hgv, hw]
    simp only [setPropV, setRef, halk, if_true]
    exact ih (heapUpdate h1 f fun o => setOwnProp o k w)
      (fun x hx => hsub x (List.mem_cons_of_mem k hx))
      (writeEvolve_write h F h1 f k w W hfF (halS k hkS))

/-- The outer method loop completes and preserves the run invariant under
the separation and writability hypotheses of a well-formed class call. -/
theorem methodLoop_evolve (h : Heap) (c p : Nat) (cfg : JSValue)
    (oc : JSObject) (dp : PropDesc)
    (hc : h.get? c = some oc)
    (hproto : getOwn oc "prototype" = some dp) (hpv : dp.value = .vref p)
    (hcF : c ∉ writeTargets h p (forInKeys h cfg))
    (hpch : ∀ x ∈ chainAddrs h p, x ∉ writeTargets h p (forInKeys h cfg))
    (hcfgch : ∀ e, cfg = .vref e → ∀ x ∈ chainAddrs h e,
      x ∉ writeTargets h p (forInKeys h cfg))
    (herrsch : ∀ m ∈ forInKeys h cfg, ∀ g, cfgEntry h cfg m = .vref g →
      ∀ x ∈ chainAddrs h g, x ∉ writeTargets h p (forInKeys h cfg))
    (hallow : ∀ m ∈ forInKeys h cfg, ∀ f, getProp h p m = .vref f →
      isCallableRef h f = true → ∀ k ∈ forInKeys h (cfgEntry h cfg m),
        setAllowed h f k = true) :
    ∀ ms h1, (∀ m ∈ ms, m ∈ forInKeys h cfg) →
      WriteEvolve h (writeTargets h p (forInKeys h cfg)) h1 →
      ∃ h2, methodLoop c cfg h1 ms = .ok h2 ∧
        WriteEvolve h (writeTargets h p (forInKeys h cfg)) h2 := by
  intro ms
  induction ms with
  | nil => exact fun h1 hsub W => ⟨h1, rfl, W⟩
  | cons m rest ih =>
    intro h1 hsub W
    have hmK : m ∈ forInKeys h cfg := hsub m (List.mem_cons_self m rest)
    have hc1 : h1.get? c = some oc := by
      rw [W.2.1 c hcF]
      exact hc
    have hcp1 : getProp h1 c "prototype" = .vref p := by
      rw [getProp_own h1 c "prototype" oc dp hc1 hproto, hpv]
    have hpm1 : getProp h1 p m = getProp h p m := by
      unfold getProp
      rw [W.1]
      exact getPropFuel_evolve_frame h h1 _ W (h.length + 1) p m hpch
    have hgv : getPropV h1 (.vref p) m = .ok (getProp h p m) := by
      rw [getPropV_ref, hpm1]
    have hfun1 : isFunctionValue h1 (getProp h p m) = isFunctionValue h (getProp h p m) :=
      isFunctionValue_evolve h h1 _ W _
    simp only [methodLoop, hcp1, hgv, hfun1]
    cases hfn : isFunctionValue h (getProp h p m) with
    | false =>
      rw [if_neg (by simp)]
      exact ih h1 (fun x hx => hsub x (List.mem_cons_of_mem m hx)) W
    | true =>
      rw [if_pos rfl]
      cases hv : getProp h p m with
      | vnull => rw [hv] at hfn; exact Bool.noConfusion hfn
      | vundefined => rw [hv] at hfn; exact Bool.noConfusion hfn
      | vbool b => rw [hv] at hfn; exact Bool.noConfusion hfn
      | vnum n => rw [hv] at hfn; exact Bool.noConfusion hfn
      | vstr s => rw [hv] at hfn; exact Bool.noConfusion hfn
      | vref f =>
        rw [hv] at hfn
        have hcal : isCallableRef h f = true := hfn
        have hfF : f ∈ writeTargets h p (forInKeys h cfg) :=
          mem_writeTargets_intro h p _ m f hmK hv hcal
        have herr := cfgEntry_read_evolve h h1 _ W cfg m hmK hcfgch
        have hinner := forInKeys_entry_evolve h h1 _ W (cfgEntry h cfg m)
          (fun g hg => herrsch m hmK g hg)
        have hread : (cfgEntry h cfg m ≠ .vnull ∧ cfgEntry h cfg m ≠ .vundefined) ∨
            forInKeys h (cfgEntry h cfg m) = [] := by
          cases cfgEntry h cfg m with
          | vnull => exact Or.inr rfl
          | vundefined => exact Or.inr rfl
          | vref g => exact Or.inl ⟨fun hh => JSValue.noConfusion hh, fun hh => JSValue.noConfusion hh⟩
          | vstr s => exact Or.inl ⟨fun hh => JSValue.noConfusion hh, fun hh => JSValue.noConfusion hh⟩
          | vbool b => exact Or.inl ⟨fun hh => JSValue.noConfusion hh, fun hh => JSValue.noConfusion hh⟩
          | vnum n => exact Or.inl ⟨fun hh => JSValue.noConfusion hh, fun hh => JSValue.noConfusion hh⟩
        simp only [herr, hinner]
        obtain ⟨h2, hsl, W2⟩ := slotLoop_evolve h c p oc dp _ hc hproto hpv hcF hpch
          m f hv hfF (cfgEntry h cfg m) (forInKeys h (cfgEntry h cfg m)) hread
          (hallow m hmK f hv hcal)
          (forInKeys h (cfgEntry h cfg m)) h1 (fun x hx => hx) W
        simp only [hsl]
        exact ih h2 (fun x hx => hsub x (List.mem_cons_of_mem m hx)) W2

/-- A class-mode call under the well-formedness hypotheses completes
without throwing, returns the class itself, and changes the heap only by
the run invariant. -/
theorem withErrors_class_evolve (h : Heap) (c p : Nat) (cfg : JSValue)
    (safe : ClassCallSafe h c p cfg) :
    ∃ h', withErrors h (.vref c) cfg = .ok (.vref c, h') ∧
      WriteEvolve h (writeTargets h p (forInKeys h cfg)) h' := by
  obtain ⟨oc, dp, hc, hcall, hsrc, hproto, hpv, hcF, hpch, hcfgch, herrsch, hallow⟩ := safe
  have hcfgch' : ∀ e, cfg = .vref e → ∀ x ∈ chainAddrs h e,
      x ∉ writeTargets h p (forInKeys h cfg) := by
    intro e he
    exact hcfgch e (by rw [he]; exact List.mem_cons_self e [])
  have herrsch' : ∀ m ∈ forInKeys h cfg, ∀ g, cfgEntry h cfg m = .vref g →
      ∀ x ∈ chainAddrs h g, x ∉ writeTargets h p (forInKeys h cfg) := by
    intro m hm g hg
    exact herrsch m hm g (by rw [hg]; exact List.mem_cons_self g [])
  have hallow' : ∀ m ∈ forInKeys h cfg, ∀ f, getProp h p m = .vref f →
      isCallableRef h f = true → ∀ k ∈ forInKeys h (cfgEntry h cfg m),
        setAllowed h f k = true := by
    intro m hm f hf hcal k hk
    exact hallow m hm k hk f (by rw [hf]; exact List.mem_cons_self f []) hcal
  obtain ⟨h2, hml, W⟩ := methodLoop_evolve h c p cfg oc dp hc hproto hpv hcF hpch
    hcfgch' herrsch' hallow' (forInKeys h cfg) h (fun m hm => hm)
    (writeEvolve_refl h (writeTargets h p (forInKeys h cfg)))
  have hclass := isClass_of h c oc hc hcall hsrc
  refine ⟨h2, ?_, W⟩
  simp only [withErrors, hclass, if_true, hml]

/-- The copy loop of `Object.assign` completes whenever no copied key
collides with a non-writable property reachable from the target. -/
theorem assignFold_evolve (a : Nat) (src : JSValue) (h : Heap) :
    ∀ ks h1, (∀ k ∈ ks, setAllowed h a k = true) → WriteEvolve h [a] h1 →
      ∃ h2, assignFold a src h1 ks = .ok h2 ∧ WriteEvolve h [a] h2 := by
  intro ks
  induction ks with
  | nil => exact fun h1 hal W => ⟨h1, rfl, W⟩
  | cons k rest ih =>
    intro h1 hal W
    have halk : setAllowed h1 a k = true := by
      unfold setAllowed
      rw [W.1]
      exact setAllowedFuel_evolve h h1 [a] W (h.length + 1) a k
        (hal k (List.mem_cons_self k rest))
    simp only [assignFold, setRef, halk, if_true]
    exact ih (heapUpdate h1 a fun o => setOwnProp o k (srcGet h1 src k))
      (fun x hx => hal x (List.mem_cons_of_mem k hx))
      (writeEvolve_write h [a] h1 a k (srcGet h1 src k) W
        (List.mem_cons_self a []) (hal k (List.mem_cons_self k rest)))

/-- C1 amended: the original claim fails on `null`/`undefined` targets
(`Object.assign` throws a TypeError there, see the counterexample) and on
writes through non-writable or chain-aliased slots.  What does hold: for
every target that is an object reference, the call completes without
throwing provided that, in callable mode, no config key collides with a
non-writable property reachable from the function and, in class mode, the
class/config shape is well formed (`ClassCallSafe`: object-valued
prototype, method functions off the relevant prototype chains, slot names
not hitting non-writable properties).  Malformed configs — `null`,
primitives, keys naming missing methods — still merely produce fewer or no
annotated properties. -/
theorem C1_amended_no_throw :
    (∀ (h : Heap) (a : Nat) (oa : JSObject) (cfg : JSValue),
      h.get? a = some oa → isClass h (.vref a) = false →
      (∀ k ∈ srcEnumKeys h cfg, setAllowed h a k = true) →
      ∃ h', withErrors h (.vref a) cfg = .ok (.vref a, h')) ∧
    (∀ (h : Heap) (c p : Nat) (cfg : JSValue), ClassCallSafe h c p cfg →
      ∃ h', withErrors h (.vref c) cfg = .ok (.vref c, h')) := by
  constructor
  · intro h a oa cfg ha hnc hal
    obtain ⟨h2, haf, W⟩ := assignFold_evolve a cfg h (srcEnumKeys h cfg) h hal
      (writeEvolve_refl h [a])
    refine ⟨h2, ?_⟩
    simp only [withErrors]
    rw [if_neg (show ¬ isClass h (.vref a) = true by rw [hnc]; exact Bool.noConfusion)]
    simp only [objectAssign, haf]
  · intro h c p cfg safe
    obtain ⟨h', hok, W⟩ := withErrors_class_evolve h c p cfg safe
    exact ⟨h', hok⟩

/-- C1 amended witness: the example callable call and the example class
call both complete. -/
theorem C1_amended_witness :
    (∃ h', withErrors fnHeap (.vref 0) (.vref 1) = .ok (.vref 0, h')) ∧
    (∃ h', withErrors clsHeap (.vref 0) (.vref 3) = .ok (.vref 0, h')) := by
  constructor
  · exact C1_amended_no_throw.1 fnHeap 0
      ({ callable := true, sourceText := "() => { throw new test.E(); }" } : JSObject)
      (.vref 1) (by decide) (by decide) (by decide)
  · exact C1_amended_no_throw.2 clsHeap 0 1 (.vref 3)
      ⟨({ callable := true, sourceText := "class C { m() { throw new E(); } }",
          props := [("prototype", { value := .vref 1, enumerable := false, writable := false })] } : JSObject),
        ({ value := .vref 1, enumerable := false, writable := false } : PropDesc),
        by decide, by decide, by decide, by decide, by decide, by decide, by decide,
        by decide, by decide, by decide⟩

/-- C8: a well-formed class-mode call is frame-preserving.  It returns the
class itself; every heap object outside the write targets — the resolved
function objects of the named, present methods — is exactly unchanged (in
particular the constructor, the prototype, every method not named in the
config, and all instances); and even the mutated method functions keep
their prototype link, callability and source text, so construction
behavior and the inheritance chain are untouched and only the named,
present method functions gain properties. -/
theorem C8_frame_preservation (h : Heap) (c p : Nat) (cfg : JSValue)
    (safe : ClassCallSafe h c p cfg) :
    ∃ h', withErrors h (.vref c) cfg = .ok (.vref c, h') ∧
      (∀ b, b ∉ writeTargets h p (forInKeys h cfg) → h'.get? b = h.get? b) ∧
      (∀ b o, h.get? b = some o → ∃ o', h'.get? b = some o' ∧ o'.proto = o.proto ∧
        o'.callable = o.callable ∧ o'.sourceText = o.sourceText) := by
  obtain ⟨h', hok, Wlen, Wout, Wobj⟩ := withErrors_class_evolve h c p cfg safe
  refine ⟨h', hok, Wout, ?_⟩
  intro b o hb
  obtain ⟨o', h1, h2, h3, h4, _⟩ := Wobj b o hb
  exact ⟨o', h1, h2, h3, h4⟩

/-- C8 witness: on the example class heap the only write target is the
method function at 2; everything else is unchanged and every object keeps
prototype, callability and source text. -/
theorem C8_witness :
    ∃ h', withErrors clsHeap (.vref 0) (.vref 3) = .ok (.vref 0, h') ∧
      (∀ b, b ∉ writeTargets clsHeap 1 (forInKeys clsHeap (.vref 3)) →
        h'.get? b = clsHeap.get? b) ∧
      (∀ b o, clsHeap.get? b = some o → ∃ o', h'.get? b = some o' ∧ o'.proto = o.proto ∧
        o'.callable = o.callable ∧ o'.sourceText = o.sourceText) :=
  C8_frame_preservation clsHeap 0 1 (.vref 3)
    ⟨({ callable := true, sourceText := "class C { m() { throw new E(); } }",
        props := [("prototype", { value := .vref 1, enumerable := false, writable := false })] } : JSObject),
      ({ value := .vref 1, enumerable := false, writable := false } : PropDesc),
      by decide, by decide, by decide, by decide, by decide, by decide, by decide,
      by decide, by decide, by decide⟩

end CompoundErrors
